import Mathlib

/-!
Verification development for the wokelang execution stack.

Shallow embedding of the repository's data model and operations:
AST (`src/ast/mod.rs`), runtime values (`src/interpreter/value.rs`),
tree-walking interpreter (`src/interpreter/mod.rs`), bytecode and
compiler (`src/vm/bytecode.rs`, `src/vm/compiler.rs`), virtual machine
(`src/vm/machine.rs`), bytecode optimizer (`src/vm/optimizer.rs`),
capability registry (`src/security/mod.rs`) and consent store
(`src/security/consent.rs`).

Modelling conventions:
* Rust `i64` is modelled as `Int` (no claim below exercises overflow);
  `u64`/`usize` as `Nat`; `SystemTime` as a `Nat` time-stamp parameter.
* `HashMap` is modelled as an association list (or as a total function
  into lists where only `get` is used); iteration order of a `HashMap`
  is unobservable in every claim below.
* `Spanned<T>` wrappers carry byte ranges used only for diagnostics;
  the interpreter reads only `.node`, so spans are dropped.
* A Rust panic (e.g. `%` with a zero divisor) is the distinguished
  outcome `Res.panic`; reading stdin is `Res.ioPrompt`; fuel exhaustion
  of the embedding is `Res.fuelOut`.
* Rust `f64` is carried as Lean `Float`; no claim below constructs or
  compares floating-point values.
-/

namespace Wokelang

/-- Function parameter (`ast::Parameter`); the optional type annotation and
span are dropped, the runtime reads only the name. -/
structure Parameter where
  name : String
deriving DecidableEq, Repr

/-- Literal values (`ast::Literal`). -/
inductive Literal where
  | integer (n : Int)
  | float (f : Float)
  | string (s : String)
  | bool (b : Bool)
deriving Repr

/-- Binary operators (`ast::BinaryOp`). -/
inductive BinaryOp where
  | add | sub | mul | div | mod
  | eq | notEq | lt | gt | ltEq | gtEq
  | and | or
deriving DecidableEq, Repr

/-- Unary operators (`ast::UnaryOp`). -/
inductive UnaryOp where
  | neg | not
deriving DecidableEq, Repr

/-- Patterns (`ast::Pattern`). -/
inductive Pattern where
  | literal (lit : Literal)
  | identifier (name : String)
  | wildcard
  | constructor (name : String) (inner : Option Pattern)
deriving Repr

mutual

/-- Expressions (`ast::Expr`); spans dropped. -/
inductive Expr where
  | literal (lit : Literal)
  | identifier (name : String)
  | binary (op : BinaryOp) (left right : Expr)
  | unary (op : UnaryOp) (operand : Expr)
  | call (name : String) (args : List Expr)
  | callExpr (callee : Expr) (args : List Expr)
  | unitMeasurement (inner : Expr) (unit : String)
  | gratitudeLiteral (name : String)
  | array (elems : List Expr)
  | index (target idx : Expr)
  | okay (inner : Expr)
  | oops (inner : Expr)
  | unwrap (inner : Expr)
  | lambda (params : List Parameter) (body : LambdaBody)
deriving Repr

/-- Lambda body (`ast::LambdaBody`). -/
inductive LambdaBody where
  | expr (e : Expr)
  | block (stmts : List Statement)
deriving Repr

/-- Statements (`ast::Statement`); a match arm `ast::MatchArm` is the pair
of its pattern and body (span dropped), and an `ast::EmoteTag` is its name
(its parameters are read by nothing in the interpreter or compiler). -/
inductive Statement where
  | varDecl (name : String) (value : Expr) (unit : Option String)
  | assignment (target : String) (value : Expr)
  | ret (value : Expr)
  | conditional (condition : Expr) (thenBranch : List Statement)
      (elseBranch : Option (List Statement))
  | loop (count : Expr) (body : List Statement)
  | attemptBlock (body : List Statement) (reassurance : String)
  | consentBlock (permission : String) (body : List Statement)
  | expression (e : Expr)
  | workerSpawn (workerName : String)
  | complain (message : String)
  | emoteAnnotated (emote : String) (stmt : Statement)
  | decide (scrutinee : Expr) (arms : List (Pattern × List Statement))
deriving Repr

end

/-- Function definition (`ast::FunctionDef`); emote tag, return type and
span dropped (not read at runtime). -/
structure FunctionDef where
  name : String
  params : List Parameter
  hello : Option String
  body : List Statement
  goodbye : Option String
deriving Repr

/-- Worker definition (`ast::WorkerDef`). -/
structure WorkerDef where
  name : String
  body : List Statement
deriving Repr

/-- Pragma directives (`ast::PragmaDirective`). -/
inductive PragmaDirective where
  | care | strict | verbose
deriving DecidableEq, Repr

/-- Top-level items (`ast::TopLevelItem`); items the interpreter and
compiler both ignore keep only the payload those components read. -/
inductive TopLevelItem where
  | function (f : FunctionDef)
  | consentBlock (permission : String) (body : List Statement)
  | gratitudeDecl (entries : List (String × String))
  | workerDef (w : WorkerDef)
  | sideQuestDef (name : String) (body : List Statement)
  | superpowerDecl (name : String)
  | moduleImport (path : List String)
  | pragma (directive : PragmaDirective) (enabled : Bool)
  | typeDef (name : String)
  | constDef (name : String) (value : Expr)
deriving Repr

/-- A program (`ast::Program`). -/
structure Program where
  items : List TopLevelItem
deriving Repr

/-- Runtime values (`interpreter::value::Value`).  A `Closure` is inlined
into the `function` constructor (its `Rc<RefCell<CapturedEnv>>` is only
ever read, never mutated, so it is carried as a plain association list);
a `ChannelHandle` is represented by its closed flag, the only part of the
handle any embedded operation reads. -/
inductive Value where
  | int (n : Int)
  | float (f : Float)
  | string (s : String)
  | bool (b : Bool)
  | array (elems : List Value)
  | record (fields : List (String × Value))
  | unit
  | okay (v : Value)
  | oops (msg : String)
  | function (params : List Parameter) (body : LambdaBody)
      (env : List (String × Value))
  | channel (closed : Bool)
deriving Repr

mutual

/-- Display form of a value (`impl fmt::Display for Value`). Record fields
print in list order (the source iterates a `HashMap`); `Float` printing
delegates to Lean's `Float` printer.  No claim below observes either. -/
def displayValue : Value → String
  | .int n => toString n
  | .float f => toString f
  | .string s => s
  | .bool b => if b then "true" else "false"
  | .array elems => "[" ++ displayValues elems ++ "]"
  | .record fields => "\x7b" ++ displayFields fields ++ "\x7d"
  | .unit => "()"
  | .okay v => "Okay(" ++ displayValue v ++ ")"
  | .oops e => "Oops(\"" ++ e ++ "\")"
  | .function params _ _ =>
      "|" ++ String.intercalate ", " (params.map (·.name)) ++ "| -> <closure>"
  | .channel closed => if closed then "<chan closed>" else "<chan open>"

/-- Comma-separated display of array elements. -/
def displayValues : List Value → String
  | [] => ""
  | [v] => displayValue v
  | v :: rest => displayValue v ++ ", " ++ displayValues rest

/-- Comma-separated display of record fields. -/
def displayFields : List (String × Value) → String
  | [] => ""
  | [(k, v)] => k ++ ": " ++ displayValue v
  | (k, v) :: rest => k ++ ": " ++ displayValue v ++ ", " ++ displayFields rest

end

/-- Association-list lookup, modelling `HashMap::get`. -/
def lookupAssoc {α : Type} (l : List (String × α)) (key : String) : Option α :=
  match l with
  | [] => none
  | (k, v) :: rest => if k = key then some v else lookupAssoc rest key

/-- Association-list insert-or-replace, modelling `HashMap::insert`. -/
def insertAssoc {α : Type} (l : List (String × α)) (key : String) (v : α) :
    List (String × α) :=
  match l with
  | [] => [(key, v)]
  | (k, w) :: rest =>
      if k = key then (k, v) :: rest else (k, w) :: insertAssoc rest key v

mutual

/-- Structural equality of values (derived `PartialEq for Value`):
closures and channels compare unequal to everything including themselves
(`impl PartialEq for Closure/ChannelHandle` both return `false`); record
equality is `HashMap` equality (same keys, equal values). -/
def beqValue : Value → Value → Bool
  | .int a, .int b => a == b
  | .float a, .float b => a == b
  | .string a, .string b => a == b
  | .bool a, .bool b => a == b
  | .array a, .array b => beqValues a b
  | .record a, .record b =>
      a.length == b.length && beqFieldsIn a b
  | .unit, .unit => true
  | .okay a, .okay b => beqValue a b
  | .oops a, .oops b => a == b
  | _, _ => false

/-- Element-wise equality of value lists (`PartialEq for Vec<Value>`). -/
def beqValues : List Value → List Value → Bool
  | [], [] => true
  | a :: as', b :: bs' => beqValue a b && beqValues as' bs'
  | _, _ => false

/-- Every field of the first record is present and equal in the second. -/
def beqFieldsIn : List (String × Value) → List (String × Value) → Bool
  | [], _ => true
  | (k, v) :: rest, b =>
      (match lookupAssoc b k with
        | some w => beqValue v w
        | none => false) && beqFieldsIn rest b

end

/-- Truthiness (`Value::is_truthy`). -/
def Value.isTruthy : Value → Bool
  | .bool b => b
  | .int n => n != 0
  | .float f => !(f == 0.0)
  | .string s => !s.isEmpty
  | .array a => !a.isEmpty
  | .record m => !m.isEmpty
  | .unit => false
  | .okay _ => true
  | .oops _ => false
  | .function _ _ _ => true
  | .channel closed => !closed

/-- Okay test (`Value::is_okay`). -/
def Value.isOkayV : Value → Bool
  | .okay _ => true
  | _ => false

/-- Oops test (`Value::is_oops`). -/
def Value.isOopsV : Value → Bool
  | .oops _ => true
  | _ => false

/-- Runtime errors (`interpreter::RuntimeError`). -/
inductive RuntimeError where
  | undefinedVariable (name : String)
  | undefinedFunction (name : String)
  | typeError (msg : String)
  | divisionByZero
  | consentDenied (what : String)
  | complaint (msg : String)
  | indexOutOfBounds (idx : Nat)
  | arityMismatch (expected got : Nat)
deriving DecidableEq, Repr

/-- Result of a pure runtime operation: a value, a `RuntimeError`, or a
Rust panic (`panicOut`). -/
inductive PRes (α : Type) where
  | ok (a : α)
  | err (e : RuntimeError)
  | panicOut
deriving Repr

/-- Environment (`interpreter::Environment`): a stack of scope frames.
The innermost scope is the list head (the source keeps it at the end of a
`Vec`; only push/pop/innermost-first iteration are used, so the
orientations correspond one-to-one). -/
structure Environment where
  scopes : List (List (String × Value))
deriving Repr

/-- Fresh environment (`Environment::new`): one empty scope. -/
def Environment.new : Environment := ⟨[[]]⟩

/-- Push a scope (`Environment::push_scope`). -/
def Environment.pushScope (env : Environment) : Environment :=
  ⟨[] :: env.scopes⟩

/-- Pop a scope (`Environment::pop_scope`). -/
def Environment.popScope (env : Environment) : Environment :=
  match env.scopes with
  | [] => ⟨[]⟩
  | _ :: rest => ⟨rest⟩

/-- Define in the innermost scope (`Environment::define`); a no-op when no
scope exists, as in the source's `if let Some(scope) = last_mut()`. -/
def Environment.define (env : Environment) (name : String) (v : Value) :
    Environment :=
  match env.scopes with
  | [] => ⟨[]⟩
  | s :: rest => ⟨insertAssoc s name v :: rest⟩

/-- Innermost-first lookup over a list of scopes. -/
def lookupScopes (scopes : List (List (String × Value))) (name : String) :
    Option Value :=
  match scopes with
  | [] => none
  | s :: rest =>
      match lookupAssoc s name with
      | some v => some v
      | none => lookupScopes rest name

/-- Variable lookup (`Environment::get`), innermost scope first. -/
def Environment.get (env : Environment) (name : String) : Option Value :=
  lookupScopes env.scopes name

/-- Overwrite in the innermost scope that already binds the name over a
list of scopes; `none` when no scope binds it. -/
def setScopes (scopes : List (List (String × Value))) (name : String)
    (v : Value) : Option (List (List (String × Value))) :=
  match scopes with
  | [] => none
  | s :: rest =>
      if (lookupAssoc s name).isSome then some (insertAssoc s name v :: rest)
      else (setScopes rest name v).map (s :: ·)

/-- Assignment (`Environment::set`): mutates the innermost scope already
binding the name; `none` models the `false` return. -/
def Environment.set (env : Environment) (name : String) (v : Value) :
    Option Environment :=
  (setScopes env.scopes name v).map Environment.mk

/-- Interpreter state (`struct Interpreter`). -/
structure InterpState where
  env : Environment
  functions : List (String × FunctionDef)
  workers : List (String × WorkerDef)
  gratitude : List (String × String)
  consentCache : List (String × Bool)
  verbose : Bool
  careMode : Bool
deriving Repr

/-- Fresh interpreter state (`Interpreter::new`). -/
def InterpState.new : InterpState :=
  ⟨Environment.new, [], [], [], [], false, true⟩

/-- Result of a stateful interpreter step.  Errors carry the state because
the source propagates `Err` with `?` while keeping every mutation made to
`self` so far (an `attempt` block observes that state).  `panicOut` is a
Rust panic, `ioPrompt` a read of stdin (consent prompt), `fuelOut` fuel
exhaustion of the embedding. -/
inductive IRes (α : Type) where
  | ok (st : InterpState) (a : α)
  | err (st : InterpState) (e : RuntimeError)
  | panicOut
  | ioPrompt
  | fuelOut
deriving Repr

/-- Sequencing for `IRes`. -/
def IRes.bind {α β : Type} : IRes α → (InterpState → α → IRes β) → IRes β
  | .ok st a, f => f st a
  | .err st e, _ => .err st e
  | .panicOut, _ => .panicOut
  | .ioPrompt, _ => .ioPrompt
  | .fuelOut, _ => .fuelOut

/-- Lift a pure operation's result into the stateful result. -/
def PRes.lift {α : Type} (st : InterpState) : PRes α → IRes α
  | .ok a => .ok st a
  | .err e => .err st e
  | .panicOut => .panicOut

/-- Control-flow signal (`interpreter::ControlFlow`); `cont` is
`Continue`, `ret` is `Return`. -/
inductive Flow where
  | cont
  | ret (v : Value)
deriving Repr

/-- Literal to value (`Interpreter::literal_to_value`).  The source also
has a `Literal::Unit` arm, but `ast::Literal` declares no such variant
(a stale arm from another draft), so it is unrepresentable here. -/
def literalToValue : Literal → Value
  | .integer n => .int n
  | .float f => .float f
  | .string s => .string s
  | .bool b => .bool b

/-- Rust `as usize` on an `i64` (two's-complement wrap). -/
def intAsUsize (n : Int) : Nat := (n % (2 : Int) ^ 64).toNat

/-- Rust `<` on `String` (byte-wise lexicographic).  Modelled as
character-wise lexicographic order, which UTF-8 byte order coincides
with. -/
def strLt (a b : String) : Bool := decide (a.data < b.data)

/-- Binary operator application (`Interpreter::apply_binary_op`).
`Div` checks both integer and float zero divisors first, exactly as the
source's match arms do; `Mod` has no such guard in the source, so a zero
divisor is the Rust panic of `%` (`panicOut`); integer `/` and `%`
truncate toward zero (`Int.tdiv`/`Int.tmod`). -/
def applyBinaryOp (op : BinaryOp) (left right : Value) : PRes Value :=
  match op with
  | .add =>
      match left, right with
      | .int a, .int b => .ok (.int (a + b))
      | .float a, .float b => .ok (.float (a + b))
      | .int a, .float b => .ok (.float (Float.ofInt a + b))
      | .float a, .int b => .ok (.float (a + Float.ofInt b))
      | .string a, .string b => .ok (.string (a ++ b))
      | .string a, b => .ok (.string (a ++ displayValue b))
      | a, .string b => .ok (.string (displayValue a ++ b))
      | _, _ => .err (.typeError "Cannot add these types")
  | .sub =>
      match left, right with
      | .int a, .int b => .ok (.int (a - b))
      | .float a, .float b => .ok (.float (a - b))
      | .int a, .float b => .ok (.float (Float.ofInt a - b))
      | .float a, .int b => .ok (.float (a - Float.ofInt b))
      | _, _ => .err (.typeError "Cannot subtract these types")
  | .mul =>
      match left, right with
      | .int a, .int b => .ok (.int (a * b))
      | .float a, .float b => .ok (.float (a * b))
      | .int a, .float b => .ok (.float (Float.ofInt a * b))
      | .float a, .int b => .ok (.float (a * Float.ofInt b))
      | _, _ => .err (.typeError "Cannot multiply these types")
  | .div =>
      match left, right with
      | _, .int 0 => .err .divisionByZero
      | _, .float f =>
          if f == 0.0 then .err .divisionByZero
          else
            match left with
            | .int a => .ok (.float (Float.ofInt a / f))
            | .float a => .ok (.float (a / f))
            | _ => .err (.typeError "Cannot divide these types")
      | .int a, .int b => .ok (.int (a.tdiv b))
      | .float a, .int b => .ok (.float (a / Float.ofInt b))
      | _, _ => .err (.typeError "Cannot divide these types")
  | .mod =>
      match left, right with
      | .int a, .int b => if b = 0 then .panicOut else .ok (.int (a.tmod b))
      | _, _ => .err (.typeError "Modulo requires integers")
  | .eq => .ok (.bool (beqValue left right))
  | .notEq => .ok (.bool (!beqValue left right))
  | .lt =>
      match left, right with
      | .int a, .int b => .ok (.bool (decide (a < b)))
      | .float a, .float b => .ok (.bool (a < b))
      | .string a, .string b => .ok (.bool (strLt a b))
      | _, _ => .err (.typeError "Cannot compare these types")
  | .gt =>
      match left, right with
      | .int a, .int b => .ok (.bool (decide (a > b)))
      | .float a, .float b => .ok (.bool (a > b))
      | .string a, .string b => .ok (.bool (strLt b a))
      | _, _ => .err (.typeError "Cannot compare these types")
  | .ltEq =>
      match left, right with
      | .int a, .int b => .ok (.bool (decide (a ≤ b)))
      | .float a, .float b => .ok (.bool (a ≤ b))
      | .string a, .string b => .ok (.bool (!strLt b a))
      | _, _ => .err (.typeError "Cannot compare these types")
  | .gtEq =>
      match left, right with
      | .int a, .int b => .ok (.bool (decide (a ≥ b)))
      | .float a, .float b => .ok (.bool (a ≥ b))
      | .string a, .string b => .ok (.bool (!strLt a b))
      | _, _ => .err (.typeError "Cannot compare these types")
  | .and => .ok (.bool (left.isTruthy && right.isTruthy))
  | .or => .ok (.bool (left.isTruthy || right.isTruthy))

/-- Unary operator application (`Interpreter::apply_unary_op`). -/
def applyUnaryOp (op : UnaryOp) (v : Value) : PRes Value :=
  match op with
  | .neg =>
      match v with
      | .int n => .ok (.int (-n))
      | .float f => .ok (.float (-f))
      | _ => .err (.typeError "Cannot negate this type")
  | .not => .ok (.bool (!v.isTruthy))

/-- Indexing (`Interpreter::apply_index`); a negative index is reported
out-of-bounds at its `as usize` wrap, as in the source. -/
def applyIndex (target idxVal : Value) : PRes Value :=
  match idxVal with
  | .int n =>
      if n < 0 then .err (.indexOutOfBounds (intAsUsize n))
      else
        let idx := n.toNat
        match target with
        | .array arr =>
            match arr.get? idx with
            | some v => .ok v
            | none => .err (.indexOutOfBounds idx)
        | .string s =>
            match s.data.get? idx with
            | some c => .ok (.string (String.mk [c]))
            | none => .err (.indexOutOfBounds idx)
        | _ => .err (.typeError "Cannot index this type")
  | _ => .err (.typeError "Index must be an integer")

/-- Pattern test (`Interpreter::pattern_matches`): an `Oops` constructor
pattern matches any `Oops` value regardless of its inner pattern. -/
def patternMatches (pattern : Pattern) (v : Value) : Bool :=
  match pattern with
  | .wildcard => true
  | .identifier _ => true
  | .literal lit => beqValue v (literalToValue lit)
  | .constructor name inner =>
      if name = "Okay" then
        match v with
        | .okay innerVal =>
            match inner with
            | some p => patternMatches p innerVal
            | none => true
        | _ => false
      else if name = "Oops" then
        match v with
        | .oops _ => true
        | _ => false
      else false

/-- Pattern binding (`Interpreter::bind_pattern`): an `Oops` inner pattern
is bound against the error message re-wrapped as a `String` value. -/
def bindPattern (pattern : Pattern) (v : Value) (env : Environment) :
    Environment :=
  match pattern with
  | .identifier name => env.define name v
  | .constructor name inner =>
      match inner with
      | some p =>
          if name = "Okay" then
            match v with
            | .okay innerVal => bindPattern p innerVal env
            | _ => env
          else if name = "Oops" then
            match v with
            | .oops msg => bindPattern p (.string msg) env
            | _ => env
          else env
      | none => env
  | .wildcard => env
  | .literal _ => env

/-- Closure capture (`Interpreter::capture_environment`): a flat snapshot,
outer scopes first so inner bindings overwrite (the source iterates
`scopes` front-to-back, which is outermost-first). -/
def captureEnvironment (env : Environment) : List (String × Value) :=
  env.scopes.reverse.foldl
    (fun acc scope => scope.foldl (fun acc kv => insertAssoc acc kv.1 kv.2) acc)
    []

/-- Built-in dispatch (`Interpreter::call_builtin`): `ok none` means "not
a builtin".  `print` writes stdout only; `len` on a string is Rust's byte
length; `toInt` on a string models `str::parse::<i64>` by `String.toInt?`
(they agree on plain decimal input) and on a float Rust's saturating
`as i64` cast, which no claim below exercises. -/
def callBuiltin (name : String) (args : List Value) : PRes (Option Value) :=
  match name with
  | "print" => .ok (some .unit)
  | "len" =>
      match args with
      | [v] =>
          match v with
          | .string s => .ok (some (.int (s.utf8ByteSize : Nat)))
          | .array a => .ok (some (.int (a.length : Nat)))
          | _ => .err (.typeError "len() requires string or array")
      | _ => .err (.arityMismatch 1 args.length)
  | "toString" =>
      match args with
      | [v] => .ok (some (.string (displayValue v)))
      | _ => .err (.arityMismatch 1 args.length)
  | "toInt" =>
      match args with
      | [v] =>
          match v with
          | .string s =>
              match s.toInt? with
              | some n => .ok (some (.int n))
              | none =>
                  .err (.typeError ("Cannot convert " ++ s ++ " to Int"))
          | .float f =>
              .ok (some (.int (if f < 0.0 then -(((-f).toUInt64.toNat : Nat) : Int)
                               else ((f.toUInt64.toNat : Nat) : Int))))
          | .int n => .ok (some (.int n))
          | _ => .err (.typeError "Cannot convert to Int")
      | _ => .err (.arityMismatch 1 args.length)
  | "isOkay" =>
      match args with
      | [v] => .ok (some (.bool v.isOkayV))
      | _ => .err (.arityMismatch 1 args.length)
  | "isOops" =>
      match args with
      | [v] => .ok (some (.bool v.isOopsV))
      | _ => .err (.arityMismatch 1 args.length)
  | "unwrapOr" =>
      match args with
      | [v, d] =>
          match v with
          | .okay inner => .ok (some inner)
          | .oops _ => .ok (some d)
          | other => .ok (some other)
      | _ => .err (.arityMismatch 2 args.length)
  | "getError" =>
      match args with
      | [v] =>
          match v with
          | .oops e => .ok (some (.string e))
          | _ => .ok (some .unit)
      | _ => .err (.arityMismatch 1 args.length)
  | _ => .ok none

mutual

/-- Expression evaluation (`Interpreter::evaluate`), fuelled.  Each
recursive call spends one unit of fuel; `fuelOut` bounds the embedding,
never the program. -/
def evaluate : Nat → InterpState → Expr → IRes Value
  | 0, _, _ => .fuelOut
  | fuel + 1, st, e =>
      match e with
      | .literal lit => .ok st (literalToValue lit)
      | .identifier name =>
          match st.env.get name with
          | some v => .ok st v
          | none => .err st (.undefinedVariable name)
      | .binary op l r =>
          IRes.bind (evaluate fuel st l) fun st1 lv =>
          IRes.bind (evaluate fuel st1 r) fun st2 rv =>
          PRes.lift st2 (applyBinaryOp op lv rv)
      | .unary op operand =>
          IRes.bind (evaluate fuel st operand) fun st1 v =>
          PRes.lift st1 (applyUnaryOp op v)
      | .call name args =>
          IRes.bind (evalArgs fuel st args) fun st1 vals =>
          IRes.bind (PRes.lift st1 (callBuiltin name vals)) fun st2 res =>
          match res with
          | some v => .ok st2 v
          | none => callFunction fuel st2 name vals
      | .callExpr callee args =>
          IRes.bind (evaluate fuel st callee) fun st1 calleeVal =>
          IRes.bind (evalArgs fuel st1 args) fun st2 vals =>
          match calleeVal with
          | .function params body cenv =>
              callClosure fuel st2 params body cenv vals
          | _ => .err st2 (.typeError "Cannot call non-function value")
      | .unitMeasurement inner _ => evaluate fuel st inner
      | .gratitudeLiteral name => .ok st (.string ("Thanks to " ++ name))
      | .array elems =>
          IRes.bind (evalArgs fuel st elems) fun st1 vals =>
          .ok st1 (.array vals)
      | .index target idx =>
          IRes.bind (evaluate fuel st target) fun st1 tv =>
          IRes.bind (evaluate fuel st1 idx) fun st2 iv =>
          PRes.lift st2 (applyIndex tv iv)
      | .okay inner =>
          IRes.bind (evaluate fuel st inner) fun st1 v => .ok st1 (.okay v)
      | .oops inner =>
          IRes.bind (evaluate fuel st inner) fun st1 v =>
          match v with
          | .string s => .ok st1 (.oops s)
          | other => .ok st1 (.oops (displayValue other))
      | .unwrap inner =>
          IRes.bind (evaluate fuel st inner) fun st1 v =>
          match v with
          | .okay v => .ok st1 v
          | .oops e => .err st1 (.complaint e)
          | other => .ok st1 other
      | .lambda params body =>
          .ok st (.function params body (captureEnvironment st.env))

/-- Left-to-right evaluation of argument lists (the `args.iter().map`
collection in `Expr::Call`/`Expr::CallExpr`/`Expr::Array`). -/
def evalArgs : Nat → InterpState → List Expr → IRes (List Value)
  | 0, _, _ => .fuelOut
  | _ + 1, st, [] => .ok st []
  | fuel + 1, st, e :: rest =>
      IRes.bind (evaluate fuel st e) fun st1 v =>
      IRes.bind (evalArgs fuel st1 rest) fun st2 vs =>
      .ok st2 (v :: vs)

/-- Statement execution (`Interpreter::execute_statement`).  The
`conditional` arm runs the taken branch directly in the current scope —
the source pushes no scope there, unlike `attemptBlock` and `decide`. -/
def execStatement : Nat → InterpState → Statement → IRes Flow
  | 0, _, _ => .fuelOut
  | fuel + 1, st, stmt =>
      match stmt with
      | .varDecl name value _ =>
          IRes.bind (evaluate fuel st value) fun st1 v =>
          .ok { st1 with env := st1.env.define name v } .cont
      | .assignment target value =>
          IRes.bind (evaluate fuel st value) fun st1 v =>
          match st1.env.set target v with
          | some env1 => .ok { st1 with env := env1 } .cont
          | none => .err st1 (.undefinedVariable target)
      | .ret value =>
          IRes.bind (evaluate fuel st value) fun st1 v => .ok st1 (.ret v)
      | .conditional condition thenBranch elseBranch =>
          IRes.bind (evaluate fuel st condition) fun st1 c =>
          if c.isTruthy then execBlock fuel st1 thenBranch
          else
            match elseBranch with
            | some elseB => execBlock fuel st1 elseB
            | none => .ok st1 .cont
      | .loop count body =>
          IRes.bind (evaluate fuel st count) fun st1 v =>
          match v with
          | .int n => execLoop fuel st1 n.toNat body
          | _ => .err st1 (.typeError "Loop count must be an integer")
      | .attemptBlock body _ =>
          let stIn := { st with env := st.env.pushScope }
          match execBlock fuel stIn body with
          | .ok st1 flow => .ok { st1 with env := st1.env.popScope } flow
          | .err st1 _ => .ok { st1 with env := st1.env.popScope } .cont
          | other => other
      | .consentBlock permission body =>
          IRes.bind (execConsent fuel st permission body) fun st1 _ =>
          .ok st1 .cont
      | .expression e =>
          IRes.bind (evaluate fuel st e) fun st1 _ => .ok st1 .cont
      | .workerSpawn workerName =>
          match lookupAssoc st.workers workerName with
          | some worker =>
              let stIn := { st with env := st.env.pushScope }
              IRes.bind (execIgnoringFlow fuel stIn worker.body) fun st1 _ =>
              .ok { st1 with env := st1.env.popScope } .cont
          | none => .ok st .cont
      | .complain _ => .ok st .cont
      | .emoteAnnotated _ inner => execStatement fuel st inner
      | .decide scrutinee arms =>
          IRes.bind (evaluate fuel st scrutinee) fun st1 v =>
          execDecide fuel st1 v arms

/-- Run a statement list, stopping at the first `Return` (the
`for stmt in body { if let Return(v) = ... { return Return(v) } }`
pattern shared by conditionals, loops, blocks and function bodies). -/
def execBlock : Nat → InterpState → List Statement → IRes Flow
  | 0, _, _ => .fuelOut
  | _ + 1, st, [] => .ok st .cont
  | fuel + 1, st, s :: rest =>
      IRes.bind (execStatement fuel st s) fun st1 flow =>
      match flow with
      | .ret v => .ok st1 (.ret v)
      | .cont => execBlock fuel st1 rest

/-- Run a statement list discarding control flow (`?` on each statement,
result ignored), as in `WorkerSpawn` and `execute_consent_block`. -/
def execIgnoringFlow : Nat → InterpState → List Statement → IRes Unit
  | 0, _, _ => .fuelOut
  | _ + 1, st, [] => .ok st ()
  | fuel + 1, st, s :: rest =>
      IRes.bind (execStatement fuel st s) fun st1 _ =>
      execIgnoringFlow fuel st1 rest

/-- Repeat-loop iterations (`for _ in 0..n` in `Statement::Loop`); a
negative count clamps to zero iterations as `0..n` is then empty. -/
def execLoop : Nat → InterpState → Nat → List Statement → IRes Flow
  | 0, _, _, _ => .fuelOut
  | _ + 1, st, 0, _ => .ok st .cont
  | fuel + 1, st, n + 1, body =>
      IRes.bind (execBlock fuel st body) fun st1 flow =>
      match flow with
      | .ret v => .ok st1 (.ret v)
      | .cont => execLoop fuel st1 n body

/-- Arm selection for `Statement::Decide`: first matching arm wins; a
scope is pushed, the pattern bound, the body run, and the scope popped on
normal exit or `Return` (an error propagates without the pop, as the
source's `?` skips it). -/
def execDecide : Nat → InterpState → Value →
    List (Pattern × List Statement) → IRes Flow
  | 0, _, _, _ => .fuelOut
  | _ + 1, st, _, [] => .ok st .cont
  | fuel + 1, st, v, (pattern, body) :: rest =>
      if patternMatches pattern v then
        let stIn := { st with env := bindPattern pattern v st.env.pushScope }
        IRes.bind (execBlock fuel stIn body) fun st1 flow =>
        .ok { st1 with env := st1.env.popScope } flow
      else execDecide fuel st v rest

/-- Consent-block execution (`Interpreter::execute_consent_block`): a
cache hit decides; a miss prompts on stdin (`ioPrompt`).  A granted body
runs under a fresh scope with control flow discarded. -/
def execConsent : Nat → InterpState → String → List Statement → IRes Unit
  | 0, _, _, _ => .fuelOut
  | fuel + 1, st, permission, body =>
      match lookupAssoc st.consentCache permission with
      | some granted =>
          if granted then
            let stIn := { st with env := st.env.pushScope }
            IRes.bind (execIgnoringFlow fuel stIn body) fun st1 _ =>
            .ok { st1 with env := st1.env.popScope } ()
          else .ok st ()
      | none => .ioPrompt

/-- Function call (`Interpreter::call_function`): a variable holding a
closure shadows a registered function; a variable of any other kind falls
through to the function table.  On normal completion the parameter scope
is popped; an error propagates without the pop. -/
def callFunction : Nat → InterpState → String → List Value → IRes Value
  | 0, _, _, _ => .fuelOut
  | fuel + 1, st, name, args =>
      match st.env.get name with
      | some (.function params body cenv) =>
          callClosure fuel st params body cenv args
      | _ =>
          match lookupAssoc st.functions name with
          | none => .err st (.undefinedFunction name)
          | some func =>
              if func.params.length ≠ args.length then
                .err st (.arityMismatch func.params.length args.length)
              else
                let paramScope :=
                  (func.params.zip args).foldl
                    (fun acc pa => insertAssoc acc pa.1.name pa.2) []
                let stIn := { st with env := ⟨paramScope :: st.env.scopes⟩ }
                IRes.bind (execBlock fuel stIn func.body) fun st1 flow =>
                .ok { st1 with env := st1.env.popScope }
                  (match flow with | .ret v => v | .cont => .unit)

/-- Closure call (`Interpreter::call_closure`): the captured snapshot
becomes the sole outer scope, a parameter scope is pushed, the body runs,
and the caller's environment is restored in full.  For a block body the
source's `?` skips the restore on error; for an expression body the
restore happens before the error is returned. -/
def callClosure : Nat → InterpState → List Parameter → LambdaBody →
    List (String × Value) → List Value → IRes Value
  | 0, _, _, _, _, _ => .fuelOut
  | fuel + 1, st, params, body, cenv, args =>
      if params.length ≠ args.length then
        .err st (.arityMismatch params.length args.length)
      else
        let savedEnv := st.env
        let baseScope :=
          cenv.foldl (fun acc kv => insertAssoc acc kv.1 kv.2) []
        let paramScope :=
          (params.zip args).foldl (fun acc pa => insertAssoc acc pa.1.name pa.2)
            []
        let stIn := { st with env := ⟨[paramScope, baseScope]⟩ }
        match body with
        | .expr e =>
            match evaluate fuel stIn e with
            | .ok st1 v => .ok { st1 with env := savedEnv } v
            | .err st1 err => .err { st1 with env := savedEnv } err
            | other => other
        | .block stmts =>
            IRes.bind (execBlock fuel stIn stmts) fun st1 flow =>
            .ok { st1 with env := savedEnv }
              (match flow with | .ret v => v | .cont => .unit)

end

/-- First pass of `Interpreter::run`: register functions, workers,
gratitude entries and pragma effects. -/
def registerItems (st : InterpState) : List TopLevelItem → InterpState
  | [] => st
  | item :: rest =>
      let st' :=
        match item with
        | .function f =>
            { st with functions := insertAssoc st.functions f.name f }
        | .workerDef w =>
            { st with workers := insertAssoc st.workers w.name w }
        | .gratitudeDecl entries =>
            { st with gratitude := st.gratitude ++ entries }
        | .pragma directive enabled =>
            match directive with
            | .verbose => { st with verbose := enabled }
            | .care => { st with careMode := enabled }
            | .strict => st
        | _ => st
      registerItems st' rest

/-- Second pass of `Interpreter::run`: execute top-level consent blocks
in order. -/
def runConsentBlocks (fuel : Nat) (st : InterpState) :
    List TopLevelItem → IRes Unit
  | [] => .ok st ()
  | item :: rest =>
      match item with
      | .consentBlock permission body =>
          IRes.bind (execConsent fuel st permission body) fun st1 _ =>
          runConsentBlocks fuel st1 rest
      | _ => runConsentBlocks fuel st rest

/-- Whole-program interpretation (`Interpreter::run`), returning the value
produced by the `main` call (`none` when no `main` is defined; the source
then simply returns unit). -/
def interpRun (fuel : Nat) (p : Program) : IRes (Option Value) :=
  let st := registerItems InterpState.new p.items
  IRes.bind (runConsentBlocks fuel st p.items) fun st1 _ =>
  if (lookupAssoc st1.functions "main").isSome then
    IRes.bind (callFunction fuel st1 "main" []) fun st2 v => .ok st2 (some v)
  else .ok st1 none

/-- Bytecode instructions (`vm::bytecode::OpCode`). -/
inductive OpCode where
  | const (idx : Nat)
  | pop
  | dup
  | swap
  | loadLocal (slot : Nat)
  | storeLocal (slot : Nat)
  | loadGlobal (name : String)
  | storeGlobal (name : String)
  | add | sub | mul | div | mod | neg
  | eq | ne | lt | le | gt | ge
  | and | or | not
  | concat
  | jump (target : Nat)
  | jumpIfFalse (target : Nat)
  | jumpIfTrue (target : Nat)
  | call (argCount : Nat)
  | ret
  | makeClosure (funcIdx : Nat)
  | makeArray (count : Nat)
  | makeRecord (count : Nat)
  | index
  | len
  | makeOkay
  | makeOops
  | tryUnwrap
  | isOkay
  | print
  | toString
  | nop
  | halt
deriving DecidableEq, Repr

/-- A compiled function (`vm::bytecode::CompiledFunction`). -/
structure CompiledFunction where
  name : String
  arity : Nat
  locals : Nat
  code : List OpCode
  constants : List Value
deriving Repr

/-- Fresh compiled function (`CompiledFunction::new`). -/
def CompiledFunction.new (name : String) (arity : Nat) : CompiledFunction :=
  ⟨name, arity, arity, [], []⟩

/-- Index of a structurally equal constant, if present
(the scan in `CompiledFunction::add_constant`). -/
def findConstant (constants : List Value) (v : Value) : Option Nat :=
  match constants with
  | [] => none
  | c :: rest =>
      if beqValue c v then some 0 else (findConstant rest v).map (· + 1)

/-- Add a constant with structural deduplication
(`CompiledFunction::add_constant`). -/
def CompiledFunction.addConstant (f : CompiledFunction) (v : Value) :
    Nat × CompiledFunction :=
  match findConstant f.constants v with
  | some i => (i, f)
  | none => (f.constants.length, { f with constants := f.constants ++ [v] })

/-- Append an instruction, returning its index (`CompiledFunction::emit`). -/
def CompiledFunction.emit (f : CompiledFunction) (op : OpCode) :
    Nat × CompiledFunction :=
  (f.code.length, { f with code := f.code ++ [op] })

/-- Rewrite the target of a jump instruction
(`CompiledFunction::patch_jump`); `none` models the source's `panic!` on a
non-jump instruction. -/
def CompiledFunction.patchJump (f : CompiledFunction) (jumpIdx target : Nat) :
    Option CompiledFunction :=
  match f.code.get? jumpIdx with
  | some (.jump _) =>
      some { f with code := f.code.set jumpIdx (.jump target) }
  | some (.jumpIfFalse _) =>
      some { f with code := f.code.set jumpIdx (.jumpIfFalse target) }
  | some (.jumpIfTrue _) =>
      some { f with code := f.code.set jumpIdx (.jumpIfTrue target) }
  | _ => none

/-- A compiled program (`vm::bytecode::CompiledProgram`). -/
structure CompiledProgram where
  functions : List CompiledFunction
  entry : Option Nat
  globals : List (String × Value)
deriving Repr

/-- Fresh compiled program (`CompiledProgram::new`). -/
def CompiledProgram.new : CompiledProgram := ⟨[], none, []⟩

/-- Add a function, recording the entry point when it is named `main`
(`CompiledProgram::add_function`). -/
def CompiledProgram.addFunction (p : CompiledProgram) (f : CompiledFunction) :
    CompiledProgram :=
  { p with
    entry := if f.name = "main" then some p.functions.length else p.entry
    functions := p.functions ++ [f] }

/-- Function lookup by index (`CompiledProgram::get_function`). -/
def CompiledProgram.getFunction (p : CompiledProgram) (idx : Nat) :
    Option CompiledFunction :=
  p.functions.get? idx

/-- A VM call frame (`vm::machine::CallFrame`). -/
structure CallFrame where
  functionIdx : Nat
  ip : Nat
  basePtr : Nat
deriving DecidableEq, Repr

/-- VM state (`vm::machine::VirtualMachine`); the frame stack keeps its
top at the list head.  The stack-size and call-depth caps are the
constructor's fixed 10000 and 1000. -/
structure VMState where
  program : CompiledProgram
  stack : List Value
  callStack : List CallFrame
  globals : List (String × Value)
deriving Repr

/-- Fresh VM over a program (`VirtualMachine::new`): globals initialized
from the compiled program. -/
def VMState.new (program : CompiledProgram) : VMState :=
  ⟨program, [], [], program.globals⟩

/-- Result of a VM step (`Result<_, VMError>` plus the Rust panic of `%`
with a zero divisor and fuel exhaustion of the embedding).  `VMError`
carries only a message string. -/
inductive MRes (α : Type) where
  | ok (a : α)
  | err (msg : String)
  | panicOut
  | fuelOut
deriving Repr

/-- Sequencing for `MRes`. -/
def MRes.bind {α β : Type} : MRes α → (α → MRes β) → MRes β
  | .ok a, f => f a
  | .err m, _ => .err m
  | .panicOut, _ => .panicOut
  | .fuelOut, _ => .fuelOut

/-- Bounded push (`VirtualMachine::push`). -/
def vmPush (vm : VMState) (v : Value) : MRes VMState :=
  if vm.stack.length ≥ 10000 then .err "Stack overflow"
  else .ok { vm with stack := vm.stack ++ [v] }

/-- Checked pop (`VirtualMachine::pop`). -/
def vmPop (vm : VMState) : MRes (VMState × Value) :=
  match vm.stack.getLast? with
  | some v => .ok ({ vm with stack := vm.stack.dropLast }, v)
  | none => .err "Stack underflow"

/-- Checked peek (`VirtualMachine::peek`). -/
def vmPeek (vm : VMState) : MRes Value :=
  match vm.stack.getLast? with
  | some v => .ok v
  | none => .err "Stack underflow"

/-- Replace the instruction pointer of the top frame (the
`if let Some(frame) = self.call_stack.last_mut()` updates). -/
def setTopIp (vm : VMState) (ip : Nat) : VMState :=
  match vm.callStack with
  | [] => vm
  | frame :: rest => { vm with callStack := { frame with ip := ip } :: rest }

/-- Frame entry (`VirtualMachine::call_function`): depth and arity are
checked, the base pointer is computed below the arguments, and
`locals − arity` extra slots are initialized to `Unit`.  An argument
count exceeding the stack height would underflow the source's
`self.stack.len() - arg_count` (a Rust panic in a debug build). -/
def vmCallFunction (vm : VMState) (funcIdx argCount : Nat) : MRes VMState :=
  if vm.callStack.length ≥ 1000 then .err "Maximum call depth exceeded"
  else
    match vm.program.getFunction funcIdx with
    | none => .err "Function not found"
    | some func =>
        if argCount ≠ func.arity then .err "Wrong number of arguments"
        else if argCount > vm.stack.length then .panicOut
        else
          let basePtr := vm.stack.length - argCount
          let extraLocals := func.locals - func.arity
          .ok { vm with
                stack := vm.stack ++ List.replicate extraLocals .unit
                callStack := ⟨funcIdx, 0, basePtr⟩ :: vm.callStack }

/-- Dispatch of one fetched instruction; `vm` already holds the
incremented instruction pointer, `basePtr`/`funcLen` come from the frame
and function the caller fetched (`VirtualMachine::execute_instruction`,
the big `match instruction`). -/
def execInstr (vm : VMState) (basePtr : Nat) (constants : List Value)
    (funcLen : Nat) (instr : OpCode) : MRes VMState :=
  match instr with
  | .const idx =>
      match constants.get? idx with
      | some v => vmPush vm v
      | none => .err "Constant not found"
  | .pop => .ok { vm with stack := vm.stack.dropLast }
  | .dup => MRes.bind (vmPeek vm) fun v => vmPush vm v
  | .swap =>
      if vm.stack.length ≥ 2 then
        .ok { vm with
              stack := vm.stack.dropLast.dropLast ++
                [vm.stack.getLast?.getD .unit,
                 vm.stack.dropLast.getLast?.getD .unit] }
      else .ok vm
  | .loadLocal slot =>
      vmPush vm ((vm.stack.get? (basePtr + slot)).getD .unit)
  | .storeLocal slot =>
      MRes.bind (vmPop vm) fun (vm1, v) =>
      let idx := basePtr + slot
      let padded :=
        if vm1.stack.length ≤ idx then
          vm1.stack ++ List.replicate (idx + 1 - vm1.stack.length) .unit
        else vm1.stack
      .ok { vm1 with stack := padded.set idx v }
  | .loadGlobal name =>
      vmPush vm ((lookupAssoc vm.globals name).getD .unit)
  | .storeGlobal name =>
      MRes.bind (vmPop vm) fun (vm1, v) =>
      .ok { vm1 with globals := insertAssoc vm1.globals name v }
  | .add =>
      MRes.bind (vmPop vm) fun (vm1, b) =>
      MRes.bind (vmPop vm1) fun (vm2, a) =>
      match a, b with
      | .int x, .int y => vmPush vm2 (.int (x + y))
      | .float x, .float y => vmPush vm2 (.float (x + y))
      | .int x, .float y => vmPush vm2 (.float (Float.ofInt x + y))
      | .float x, .int y => vmPush vm2 (.float (x + Float.ofInt y))
      | .string x, .string y => vmPush vm2 (.string (x ++ y))
      | _, _ => .err "Cannot add these values"
  | .sub =>
      MRes.bind (vmPop vm) fun (vm1, b) =>
      MRes.bind (vmPop vm1) fun (vm2, a) =>
      match a, b with
      | .int x, .int y => vmPush vm2 (.int (x - y))
      | .float x, .float y => vmPush vm2 (.float (x - y))
      | .int x, .float y => vmPush vm2 (.float (Float.ofInt x - y))
      | .float x, .int y => vmPush vm2 (.float (x - Float.ofInt y))
      | _, _ => .err "Cannot subtract these values"
  | .mul =>
      MRes.bind (vmPop vm) fun (vm1, b) =>
      MRes.bind (vmPop vm1) fun (vm2, a) =>
      match a, b with
      | .int x, .int y => vmPush vm2 (.int (x * y))
      | .float x, .float y => vmPush vm2 (.float (x * y))
      | .int x, .float y => vmPush vm2 (.float (Float.ofInt x * y))
      | .float x, .int y => vmPush vm2 (.float (x * Float.ofInt y))
      | _, _ => .err "Cannot multiply these values"
  | .div =>
      MRes.bind (vmPop vm) fun (vm1, b) =>
      MRes.bind (vmPop vm1) fun (vm2, a) =>
      match a, b with
      | .int x, .int y =>
          if y = 0 then .err "Division by zero"
          else vmPush vm2 (.int (x.tdiv y))
      | .float x, .float y => vmPush vm2 (.float (x / y))
      | .int x, .float y => vmPush vm2 (.float (Float.ofInt x / y))
      | .float x, .int y => vmPush vm2 (.float (x / Float.ofInt y))
      | _, _ => .err "Cannot divide these values"
  | .mod =>
      MRes.bind (vmPop vm) fun (vm1, b) =>
      MRes.bind (vmPop vm1) fun (vm2, a) =>
      match a, b with
      | .int x, .int y =>
          if y = 0 then .panicOut else vmPush vm2 (.int (x.tmod y))
      | _, _ => .err "Modulo requires integers"
  | .neg =>
      MRes.bind (vmPop vm) fun (vm1, a) =>
      match a with
      | .int x => vmPush vm1 (.int (-x))
      | .float x => vmPush vm1 (.float (-x))
      | _ => .err "Cannot negate non-numeric value"
  | .eq =>
      MRes.bind (vmPop vm) fun (vm1, b) =>
      MRes.bind (vmPop vm1) fun (vm2, a) =>
      vmPush vm2 (.bool (beqValue a b))
  | .ne =>
      MRes.bind (vmPop vm) fun (vm1, b) =>
      MRes.bind (vmPop vm1) fun (vm2, a) =>
      vmPush vm2 (.bool (!beqValue a b))
  | .lt =>
      MRes.bind (vmPop vm) fun (vm1, b) =>
      MRes.bind (vmPop vm1) fun (vm2, a) =>
      vmPush vm2 (.bool
        (match a, b with
          | .int x, .int y => decide (x < y)
          | .float x, .float y => x < y
          | .int x, .float y => Float.ofInt x < y
          | .float x, .int y => x < Float.ofInt y
          | _, _ => false))
  | .le =>
      MRes.bind (vmPop vm) fun (vm1, b) =>
      MRes.bind (vmPop vm1) fun (vm2, a) =>
      vmPush vm2 (.bool
        (match a, b with
          | .int x, .int y => decide (x ≤ y)
          | .float x, .float y => x ≤ y
          | .int x, .float y => Float.ofInt x ≤ y
          | .float x, .int y => x ≤ Float.ofInt y
          | _, _ => false))
  | .gt =>
      MRes.bind (vmPop vm) fun (vm1, b) =>
      MRes.bind (vmPop vm1) fun (vm2, a) =>
      vmPush vm2 (.bool
        (match a, b with
          | .int x, .int y => decide (x > y)
          | .float x, .float y => x > y
          | .int x, .float y => Float.ofInt x > y
          | .float x, .int y => x > Float.ofInt y
          | _, _ => false))
  | .ge =>
      MRes.bind (vmPop vm) fun (vm1, b) =>
      MRes.bind (vmPop vm1) fun (vm2, a) =>
      vmPush vm2 (.bool
        (match a, b with
          | .int x, .int y => decide (x ≥ y)
          | .float x, .float y => x ≥ y
          | .int x, .float y => Float.ofInt x ≥ y
          | .float x, .int y => x ≥ Float.ofInt y
          | _, _ => false))
  | .and =>
      MRes.bind (vmPop vm) fun (vm1, b) =>
      MRes.bind (vmPop vm1) fun (vm2, a) =>
      vmPush vm2 (.bool (a.isTruthy && b.isTruthy))
  | .or =>
      MRes.bind (vmPop vm) fun (vm1, b) =>
      MRes.bind (vmPop vm1) fun (vm2, a) =>
      vmPush vm2 (.bool (a.isTruthy || b.isTruthy))
  | .not =>
      MRes.bind (vmPop vm) fun (vm1, a) =>
      vmPush vm1 (.bool (!a.isTruthy))
  | .concat =>
      MRes.bind (vmPop vm) fun (vm1, b) =>
      MRes.bind (vmPop vm1) fun (vm2, a) =>
      vmPush vm2 (.string (displayValue a ++ displayValue b))
  | .jump target => .ok (setTopIp vm target)
  | .jumpIfFalse target =>
      MRes.bind (vmPop vm) fun (vm1, cond) =>
      .ok (if cond.isTruthy then vm1 else setTopIp vm1 target)
  | .jumpIfTrue target =>
      MRes.bind (vmPop vm) fun (vm1, cond) =>
      .ok (if cond.isTruthy then setTopIp vm1 target else vm1)
  | .call argCount =>
      MRes.bind (vmPop vm) fun (vm1, callee) =>
      match callee with
      | .int funcIdx => vmCallFunction vm1 (intAsUsize funcIdx) argCount
      | _ => .err "Cannot call non-function value"
  | .ret =>
      let returnValue := vm.stack.getLast?.getD .unit
      let vm1 := { vm with stack := vm.stack.dropLast }
      match vm1.callStack with
      | [] => .err "No active call frame"
      | frame :: rest =>
          .ok { vm1 with
                stack := vm1.stack.take frame.basePtr ++ [returnValue]
                callStack := rest }
  | .makeClosure funcIdx => vmPush vm (.int (funcIdx : Nat))
  | .makeArray count =>
      if count ≤ vm.stack.length then
        let elems := vm.stack.drop (vm.stack.length - count)
        MRes.bind (vmPush { vm with stack := vm.stack.take (vm.stack.length - count) }
          (.array elems)) .ok
      else .err "Stack underflow"
  | .makeRecord count => makeRecordLoop vm count []
  | .index =>
      MRes.bind (vmPop vm) fun (vm1, idxVal) =>
      MRes.bind (vmPop vm1) fun (vm2, object) =>
      vmPush vm2
        (match object, idxVal with
          | .array arr, .int i => (arr.get? (intAsUsize i)).getD .unit
          | .string s, .int i =>
              match s.data.get? (intAsUsize i) with
              | some c => .string (String.mk [c])
              | none => .unit
          | .record fields, .string key => (lookupAssoc fields key).getD .unit
          | _, _ => .unit)
  | .len =>
      MRes.bind (vmPop vm) fun (vm1, v) =>
      vmPush vm1 (.int
        (match v with
          | .array arr => (arr.length : Nat)
          | .string s => (s.utf8ByteSize : Nat)
          | .record fields => (fields.length : Nat)
          | _ => 0))
  | .makeOkay =>
      MRes.bind (vmPop vm) fun (vm1, v) => vmPush vm1 (.okay v)
  | .makeOops =>
      MRes.bind (vmPop vm) fun (vm1, v) =>
      vmPush vm1 (.oops (match v with | .string s => s | other => displayValue other))
  | .tryUnwrap =>
      MRes.bind (vmPop vm) fun (vm1, v) =>
      match v with
      | .okay inner => vmPush vm1 inner
      | .oops _ =>
          .ok (setTopIp { vm1 with stack := vm1.stack ++ [v] } funcLen)
      | other => vmPush vm1 other
  | .isOkay =>
      MRes.bind (vmPeek vm) fun v => vmPush vm (.bool v.isOkayV)
  | .print =>
      MRes.bind (vmPop vm) fun (vm1, _) => .ok vm1
  | .toString =>
      MRes.bind (vmPop vm) fun (vm1, v) =>
      vmPush vm1 (.string (displayValue v))
  | .nop => .ok vm
  | .halt => .ok { vm with callStack := [] }
where
  /-- Pop `count` key/value pairs into a record (`OpCode::MakeRecord`). -/
  makeRecordLoop (vm : VMState) : Nat → List (String × Value) → MRes VMState
    | 0, fields => vmPush vm (.record fields)
    | n + 1, fields =>
        MRes.bind (vmPop vm) fun (vm1, v) =>
        MRes.bind (vmPop vm1) fun (vm2, k) =>
        match k with
        | .string key => makeRecordLoop vm2 n (insertAssoc fields key v)
        | _ => .err "Record keys must be strings"

/-- One VM step (`VirtualMachine::execute_instruction`): fetch from the
top frame; an instruction pointer past the end performs the implicit
return; otherwise the pointer is incremented before dispatch. -/
def vmStep (vm : VMState) : MRes VMState :=
  match vm.callStack with
  | [] => .err "No active call frame"
  | frame :: restFrames =>
      match vm.program.getFunction frame.functionIdx with
      | none => .err "Invalid function index"
      | some func =>
          if frame.ip ≥ func.code.length then
            let returnValue := vm.stack.getLast?.getD .unit
            .ok { vm with
                  stack := vm.stack.dropLast.take frame.basePtr ++ [returnValue]
                  callStack := restFrames }
          else
            match func.code.get? frame.ip with
            | none => .err "Invalid function index"
            | some instr =>
                execInstr
                  { vm with
                    callStack := { frame with ip := frame.ip + 1 } :: restFrames }
                  frame.basePtr func.constants func.code.length instr

/-- Fuelled iteration of the `while !self.call_stack.is_empty()` loop in
`VirtualMachine::run`. -/
def vmLoop : Nat → VMState → MRes VMState
  | 0, _ => .fuelOut
  | fuel + 1, vm =>
      if vm.callStack.isEmpty then .ok vm
      else MRes.bind (vmStep vm) (vmLoop fuel)

/-- Whole-program VM execution (`VirtualMachine::run`): call the entry
function, iterate to quiescence, and pop the final value (`Unit` when the
stack is empty). -/
def machineRun (fuel : Nat) (program : CompiledProgram) : MRes Value :=
  match program.entry with
  | none => .err "No main function found"
  | some entry =>
      MRes.bind (vmCallFunction (VMState.new program) entry 0) fun vm1 =>
      MRes.bind (vmLoop fuel vm1) fun vm2 =>
      .ok (vm2.stack.getLast?.getD .unit)

/-- Compiler state (`vm::compiler::BytecodeCompiler`).  `breakTargets` and
`continueTargets` are carried for fidelity with `compile_loop`; no break
or continue statement exists in the AST, so the break lists stay empty. -/
structure CompilerSt where
  program : CompiledProgram
  currentFunction : Option CompiledFunction
  locals : List (String × Nat)
  functionIndices : List (String × Nat)
  breakTargets : List (List Nat)
  continueTargets : List Nat
deriving Repr

/-- Fresh compiler (`BytecodeCompiler::new`). -/
def CompilerSt.new : CompilerSt := ⟨CompiledProgram.new, none, [], [], [], []⟩

/-- Emit into the current function (`BytecodeCompiler::emit`); index 0
when no function is current, as in the source. -/
def CompilerSt.emit (st : CompilerSt) (op : OpCode) : Nat × CompilerSt :=
  match st.currentFunction with
  | some f =>
      let (idx, f') := f.emit op
      (idx, { st with currentFunction := some f' })
  | none => (0, st)

/-- Add a constant to the current function (`BytecodeCompiler::add_constant`). -/
def CompilerSt.addConstant (st : CompilerSt) (v : Value) : Nat × CompilerSt :=
  match st.currentFunction with
  | some f =>
      let (idx, f') := f.addConstant v
      (idx, { st with currentFunction := some f' })
  | none => (0, st)

/-- Current instruction offset (`BytecodeCompiler::current_offset`). -/
def CompilerSt.currentOffset (st : CompilerSt) : Nat :=
  match st.currentFunction with
  | some f => f.code.length
  | none => 0

/-- Patch a jump in the current function (`BytecodeCompiler::patch_jump`);
propagates the `patch_jump` panic as `none`. -/
def CompilerSt.patchJump (st : CompilerSt) (jumpIdx target : Nat) :
    Option CompilerSt :=
  match st.currentFunction with
  | some f =>
      (f.patchJump jumpIdx target).map fun f' =>
        { st with currentFunction := some f' }
  | none => some st

/-- Local slot allocation (`BytecodeCompiler::allocate_local`): reuse an
existing slot, else take the next `locals` index of the current function. -/
def CompilerSt.allocateLocal (st : CompilerSt) (name : String) :
    Nat × CompilerSt :=
  match lookupAssoc st.locals name with
  | some slot => (slot, st)
  | none =>
      match st.currentFunction with
      | some f =>
          let slot := f.locals
          (slot,
            { st with
              currentFunction := some { f with locals := f.locals + 1 }
              locals := insertAssoc st.locals name slot })
      | none =>
          (0, { st with locals := insertAssoc st.locals name 0 })

/-- Patch the collected end jumps of a `Decide` lowering. -/
def patchEndJumps (st : CompilerSt) (target : Nat) :
    List Nat → Option CompilerSt
  | [] => some st
  | j :: rest => do
      let st1 ← st.patchJump j target
      patchEndJumps st1 target rest

/-- Compile-time constant evaluation (`BytecodeCompiler::try_eval_const`). -/
def tryEvalConst : Expr → Option Value
  | .literal lit => some (literalToValue lit)
  | _ => none

mutual

/-- Expression lowering (`BytecodeCompiler::compile_expr`).  The source
file targets an older AST draft: it has no arm for `CallExpr`, `Index` or
`Lambda` (and its `ResultConstructor`/`Try` arms correspond to this AST's
`okay`/`oops`/`unwrap`), so those constructs compile to `none` here. -/
def compileExpr (st : CompilerSt) : Expr → Option CompilerSt
  | .literal lit =>
      let (idx, st1) := st.addConstant (literalToValue lit)
      some (st1.emit (.const idx)).2
  | .identifier name =>
      match lookupAssoc st.locals name with
      | some slot => some (st.emit (.loadLocal slot)).2
      | none =>
          match lookupAssoc st.functionIndices name with
          | some funcIdx => some (st.emit (.makeClosure funcIdx)).2
          | none => some (st.emit (.loadGlobal name)).2
  | .binary op left right => do
      let st1 ← compileExpr st left
      let st2 ← compileExpr st1 right
      some (st2.emit
        (match op with
          | .add => .add
          | .sub => .sub
          | .mul => .mul
          | .div => .div
          | .mod => .mod
          | .eq => .eq
          | .notEq => .ne
          | .lt => .lt
          | .gt => .gt
          | .ltEq => .le
          | .gtEq => .ge
          | .and => .and
          | .or => .or)).2
  | .unary op operand => do
      let st1 ← compileExpr st operand
      some (st1.emit (match op with | .neg => .neg | .not => .not)).2
  | .call name args => do
      let st1 ← compileExprList st args
      match name with
      | "print" => some (st1.emit .print).2
      | "toString" => some (st1.emit .toString).2
      | "len" => some (st1.emit .len).2
      | _ =>
          match lookupAssoc st1.functionIndices name with
          | some funcIdx =>
              let st2 := (st1.emit (.makeClosure funcIdx)).2
              some (st2.emit (.call args.length)).2
          | none =>
              let st2 := (st1.emit (.loadGlobal name)).2
              some (st2.emit (.call args.length)).2
  | .array elems => do
      let st1 ← compileExprList st elems
      some (st1.emit (.makeArray elems.length)).2
  | .okay value => do
      let st1 ← compileExpr st value
      some (st1.emit .makeOkay).2
  | .oops value => do
      let st1 ← compileExpr st value
      some (st1.emit .makeOops).2
  | .unwrap inner => do
      let st1 ← compileExpr st inner
      some (st1.emit .tryUnwrap).2
  | .unitMeasurement value _ => compileExpr st value
  | .gratitudeLiteral name =>
      let (idx, st1) := st.addConstant (.string name)
      some (st1.emit (.const idx)).2
  | .callExpr _ _ => none
  | .index _ _ => none
  | .lambda _ _ => none

/-- Left-to-right lowering of expression lists (argument and array
element loops in `compile_expr`). -/
def compileExprList (st : CompilerSt) : List Expr → Option CompilerSt
  | [] => some st
  | e :: rest => do
      let st1 ← compileExpr st e
      compileExprList st1 rest

/-- Statement lowering (`BytecodeCompiler::compile_statement`). -/
def compileStatement (st : CompilerSt) : Statement → Option CompilerSt
  | .varDecl name value _ => do
      let st1 ← compileExpr st value
      let (slot, st2) := st1.allocateLocal name
      some (st2.emit (.storeLocal slot)).2
  | .assignment target value => do
      let st1 ← compileExpr st value
      match lookupAssoc st1.locals target with
      | some slot => some (st1.emit (.storeLocal slot)).2
      | none => some (st1.emit (.storeGlobal target)).2
  | .ret value => do
      let st1 ← compileExpr st value
      some (st1.emit .ret).2
  | .conditional condition thenBranch elseBranch => do
      let st1 ← compileExpr st condition
      let (jumpIfFalse, st2) := st1.emit (.jumpIfFalse 0)
      let st3 ← compileStatements st2 thenBranch
      match elseBranch with
      | some elseB => do
          let (jumpOverElse, st4) := st3.emit (.jump 0)
          let st5 ← st4.patchJump jumpIfFalse st4.currentOffset
          let st6 ← compileStatements st5 elseB
          st6.patchJump jumpOverElse st6.currentOffset
      | none => st3.patchJump jumpIfFalse st3.currentOffset
  | .loop count body => do
      let st1 ← compileExpr st count
      let (counterSlot, st2) := st1.allocateLocal "__counter__"
      let st3 := (st2.emit (.storeLocal counterSlot)).2
      let st4 := { st3 with breakTargets := [] :: st3.breakTargets }
      let loopStart := st4.currentOffset
      let st5 := { st4 with continueTargets := loopStart :: st4.continueTargets }
      let st6 := (st5.emit (.loadLocal counterSlot)).2
      let (zeroIdx, st7) := st6.addConstant (.int 0)
      let st8 := (st7.emit (.const zeroIdx)).2
      let st9 := (st8.emit .gt).2
      let (exitJump, st10) := st9.emit (.jumpIfFalse 0)
      let st11 ← compileStatements st10 body
      let st12 := (st11.emit (.loadLocal counterSlot)).2
      let (oneIdx, st13) := st12.addConstant (.int 1)
      let st14 := (st13.emit (.const oneIdx)).2
      let st15 := (st14.emit .sub).2
      let st16 := (st15.emit (.storeLocal counterSlot)).2
      let st17 := (st16.emit (.jump loopStart)).2
      let st18 ← st17.patchJump exitJump st17.currentOffset
      let st19 := { st18 with breakTargets := st18.breakTargets.tail }
      some { st19 with continueTargets := st19.continueTargets.tail }
  | .decide scrutinee arms => do
      let st1 ← compileExpr st scrutinee
      let (scrutineeSlot, st2) := st1.allocateLocal "__scrutinee__"
      let st3 := (st2.emit (.storeLocal scrutineeSlot)).2
      let (st4, endJumps) ← compileArms st3 scrutineeSlot arms []
      patchEndJumps st4 st4.currentOffset endJumps
  | .expression e => do
      let st1 ← compileExpr st e
      some (st1.emit .pop).2
  | .attemptBlock body _ => compileStatements st body
  | .consentBlock _ body => compileStatements st body
  | .complain message =>
      let (msgIdx, st1) := st.addConstant (.string message)
      let st2 := (st1.emit (.const msgIdx)).2
      let st3 := (st2.emit .makeOops).2
      some (st3.emit .ret).2
  | .emoteAnnotated _ inner => compileStatement st inner
  | .workerSpawn _ => some st

/-- Statement-list lowering (the body loops of `compile_statement`). -/
def compileStatements (st : CompilerSt) : List Statement → Option CompilerSt
  | [] => some st
  | s :: rest => do
      let st1 ← compileStatement st s
      compileStatements st1 rest

/-- Match-arm lowering loop of the `Decide` arm in `compile_statement`:
reload the scrutinee, compile the pattern test, the body, a jump to the
common end, and patch the skip jump to the next arm. -/
def compileArms (st : CompilerSt) (scrutineeSlot : Nat) :
    List (Pattern × List Statement) → List Nat →
    Option (CompilerSt × List Nat)
  | [], endJumps => some (st, endJumps)
  | (pattern, body) :: rest, endJumps => do
      let st1 := (st.emit (.loadLocal scrutineeSlot)).2
      let (skipJump, st2) ← compilePattern st1 pattern
      let st3 ← compileStatements st2 body
      let (endJump, st4) := st3.emit (.jump 0)
      let st5 ← st4.patchJump skipJump st4.currentOffset
      compileArms st5 scrutineeSlot rest (endJumps ++ [endJump])

/-- Pattern-test lowering (`BytecodeCompiler::compile_pattern`), returning
the skip-jump index to patch.  The source's `Constructor` arm only
compares the scrutinee with the constructor name string (its inner
patterns are an empty TODO loop); its `OkayPattern`/`OopsPattern`/`Guard`
arms target AST variants that do not exist in `ast::Pattern`. -/
def compilePattern (st : CompilerSt) : Pattern → Option (Nat × CompilerSt)
  | .wildcard =>
      let st1 := (st.emit .pop).2
      let (alwaysTrue, st2) := st1.addConstant (.bool true)
      let st3 := (st2.emit (.const alwaysTrue)).2
      some (st3.emit (.jumpIfFalse 0))
  | .literal lit =>
      let (idx, st1) := st.addConstant (literalToValue lit)
      let st2 := (st1.emit (.const idx)).2
      let st3 := (st2.emit .eq).2
      some (st3.emit (.jumpIfFalse 0))
  | .identifier name =>
      let (slot, st1) := st.allocateLocal name
      let st2 := (st1.emit (.storeLocal slot)).2
      let (alwaysTrue, st3) := st2.addConstant (.bool true)
      let st4 := (st3.emit (.const alwaysTrue)).2
      some (st4.emit (.jumpIfFalse 0))
  | .constructor name _ =>
      let (nameIdx, st1) := st.addConstant (.string name)
      let st2 := (st1.emit (.const nameIdx)).2
      let st3 := (st2.emit .eq).2
      some (st3.emit (.jumpIfFalse 0))

end

/-- Append the implicit `Const Unit; Return` when the body does not end in
`Return` (the tail of `compile_function` and the worker arm). -/
def implicitReturn (st : CompilerSt) : CompilerSt :=
  match st.currentFunction with
  | none => st
  | some f =>
      if f.code.isEmpty ∨ f.code.getLast? ≠ some .ret then
        let (unitIdx, st1) := st.addConstant .unit
        let st2 := (st1.emit (.const unitIdx)).2
        (st2.emit .ret).2
      else st

/-- Move the finished current function into the program
(`self.current_function.take()` followed by `add_function`). -/
def finishFunction (st : CompilerSt) : CompilerSt :=
  match st.currentFunction with
  | some f =>
      { st with
        program := st.program.addFunction f
        currentFunction := none }
  | none => st

/-- Function compilation (`BytecodeCompiler::compile_function`). -/
def compileFunction (st : CompilerSt) (func : FunctionDef) :
    Option CompilerSt := do
  let compiled := CompiledFunction.new func.name func.params.length
  let paramLocals :=
    (func.params.enum.map fun pi => (pi.2.name, pi.1)).foldl
      (fun acc kv => insertAssoc acc kv.1 kv.2) []
  let st1 := { st with locals := paramLocals, currentFunction := some compiled }
  let st2 ← compileStatements st1 func.body
  some (finishFunction (implicitReturn st2))

/-- Item compilation (`BytecodeCompiler::compile_item`): workers compile
as zero-arity functions, consent blocks as anonymous functions whose body
always ends with `Const Unit; Return`, const definitions populate the
globals when compile-time-evaluable, and the remaining items are
metadata. -/
def compileItem (st : CompilerSt) : TopLevelItem → Option CompilerSt
  | .function func => compileFunction st func
  | .workerDef worker => do
      let compiled := { CompiledFunction.new worker.name 0 with locals := 0 }
      let st1 := { st with locals := [], currentFunction := some compiled }
      let st2 ← compileStatements st1 worker.body
      some (finishFunction (implicitReturn st2))
  | .consentBlock permission body => do
      let compiled :=
        CompiledFunction.new ("__consent_" ++ permission ++ "__") 0
      let st1 := { st with locals := [], currentFunction := some compiled }
      let st2 ← compileStatements st1 body
      let (unitIdx, st3) := st2.addConstant .unit
      let st4 := (st3.emit (.const unitIdx)).2
      let st5 := (st4.emit .ret).2
      some (finishFunction st5)
  | .constDef name value =>
      match tryEvalConst value with
      | some v =>
          some { st with
                 program :=
                   { st.program with
                     globals := insertAssoc st.program.globals name v } }
      | none => some st
  | _ => some st

/-- Item-list compilation (the second pass of `BytecodeCompiler::compile`). -/
def compileItems (st : CompilerSt) : List TopLevelItem → Option CompilerSt
  | [] => some st
  | item :: rest => do
      let st1 ← compileItem st item
      compileItems st1 rest

/-- First pass of `BytecodeCompiler::compile`: register every function
name at index `functions.len() + function_indices.len()` (the program is
empty at this point, so indices count registered names). -/
def registerFunctionIndices (st : CompilerSt) : List TopLevelItem → CompilerSt
  | [] => st
  | item :: rest =>
      let st' :=
        match item with
        | .function func =>
            { st with
              functionIndices :=
                insertAssoc st.functionIndices func.name
                  (st.program.functions.length + st.functionIndices.length) }
        | _ => st
      registerFunctionIndices st' rest

/-- Whole-program compilation (`BytecodeCompiler::compile`). -/
def compileProgram (p : Program) : Option CompiledProgram := do
  let st := registerFunctionIndices CompilerSt.new p.items
  let st1 ← compileItems st p.items
  some st1.program

/-- Prefix counts of non-`Nop` instructions (the `new_indices` map built
by `Optimizer::remove_nops`). -/
def newIndicesAux : List OpCode → Nat → List Nat
  | [], _ => []
  | op :: rest, acc =>
      acc :: newIndicesAux rest (if op = .nop then acc else acc + 1)

/-- Old-to-new index map of `Optimizer::remove_nops`. -/
def newIndices (code : List OpCode) : List Nat := newIndicesAux code 0

/-- Jump-target rewrite of `remove_nops`: a target inside the map is
replaced by its new index, one past the end is left unchanged. -/
def retargetOp (ni : List Nat) : OpCode → OpCode
  | .jump t =>
      match ni.get? t with
      | some t' => .jump t'
      | none => .jump t
  | .jumpIfFalse t =>
      match ni.get? t with
      | some t' => .jumpIfFalse t'
      | none => .jumpIfFalse t
  | .jumpIfTrue t =>
      match ni.get? t with
      | some t' => .jumpIfTrue t'
      | none => .jumpIfTrue t
  | op => op

/-- Nop compaction (`Optimizer::remove_nops`): rewrite all jump targets
through the old-to-new map, then drop every `Nop`. -/
def removeNops (f : CompiledFunction) : CompiledFunction :=
  let ni := newIndices f.code
  { f with code := (f.code.map (retargetOp ni)).filter (fun op => op ≠ .nop) }

/-- Constant-pool add with deduplication on a bare pool (the
`func.add_constant` call inside `fold_constants`). -/
def addConstList (constants : List Value) (v : Value) : Nat × List Value :=
  match findConstant constants v with
  | some i => (i, constants)
  | none => (constants.length, constants ++ [v])

/-- Folding of `Add` (`Optimizer::fold_add`). -/
def foldAdd (a b : Value) : Option Value :=
  match a, b with
  | .int x, .int y => some (.int (x + y))
  | .float x, .float y => some (.float (x + y))
  | .int x, .float y => some (.float (Float.ofInt x + y))
  | .float x, .int y => some (.float (x + Float.ofInt y))
  | .string x, .string y => some (.string (x ++ y))
  | _, _ => none

/-- Folding of `Sub` (`Optimizer::fold_sub`). -/
def foldSub (a b : Value) : Option Value :=
  match a, b with
  | .int x, .int y => some (.int (x - y))
  | .float x, .float y => some (.float (x - y))
  | .int x, .float y => some (.float (Float.ofInt x - y))
  | .float x, .int y => some (.float (x - Float.ofInt y))
  | _, _ => none

/-- Folding of `Mul` (`Optimizer::fold_mul`). -/
def foldMul (a b : Value) : Option Value :=
  match a, b with
  | .int x, .int y => some (.int (x * y))
  | .float x, .float y => some (.float (x * y))
  | .int x, .float y => some (.float (Float.ofInt x * y))
  | .float x, .int y => some (.float (x * Float.ofInt y))
  | _, _ => none

/-- Folding of `Div` (`Optimizer::fold_div`); a zero integer divisor
falls through the guard to `None`. -/
def foldDiv (a b : Value) : Option Value :=
  match a, b with
  | .int x, .int y => if y ≠ 0 then some (.int (x.tdiv y)) else none
  | .float x, .float y => some (.float (x / y))
  | .int x, .float y => some (.float (Float.ofInt x / y))
  | .float x, .int y => some (.float (x / Float.ofInt y))
  | _, _ => none

/-- Folding of `Lt` (`Optimizer::fold_lt`): numeric same-kind pairs only. -/
def foldLt (a b : Value) : Option Value :=
  match a, b with
  | .int x, .int y => some (.bool (decide (x < y)))
  | .float x, .float y => some (.bool (x < y))
  | _, _ => none

/-- Folding of `Le` (`Optimizer::fold_le`). -/
def foldLe (a b : Value) : Option Value :=
  match a, b with
  | .int x, .int y => some (.bool (decide (x ≤ y)))
  | .float x, .float y => some (.bool (x ≤ y))
  | _, _ => none

/-- Folding of `Gt` (`Optimizer::fold_gt`). -/
def foldGt (a b : Value) : Option Value :=
  match a, b with
  | .int x, .int y => some (.bool (decide (x > y)))
  | .float x, .float y => some (.bool (x > y))
  | _, _ => none

/-- Folding of `Ge` (`Optimizer::fold_ge`). -/
def foldGe (a b : Value) : Option Value :=
  match a, b with
  | .int x, .int y => some (.bool (decide (x ≥ y)))
  | .float x, .float y => some (.bool (x ≥ y))
  | _, _ => none

/-- The per-opcode dispatch of the foldable binary operators inside
`Optimizer::fold_constants`. -/
def foldBinOp (op : OpCode) (a b : Value) : Option Value :=
  match op with
  | .add => foldAdd a b
  | .sub => foldSub a b
  | .mul => foldMul a b
  | .div => foldDiv a b
  | .eq => some (.bool (beqValue a b))
  | .ne => some (.bool (!beqValue a b))
  | .lt => foldLt a b
  | .le => foldLe a b
  | .gt => foldGt a b
  | .ge => foldGe a b
  | .and => some (.bool (a.isTruthy && b.isTruthy))
  | .or => some (.bool (a.isTruthy || b.isTruthy))
  | _ => none

/-- One iteration body of the scan in `Optimizer::fold_constants` at
index `i`: a `Const a; Const b; op` triple with a foldable result is
replaced by `Const (fold); Nop; Nop`. -/
def foldConstantsAt (code : List OpCode) (constants : List Value) (i : Nat) :
    List OpCode × List Value :=
  match code.get? i, code.get? (i + 1) with
  | some (.const aIdx), some (.const bIdx) =>
      match constants.get? aIdx, constants.get? bIdx with
      | some a, some b =>
          match code.get? (i + 2) with
          | some op3 =>
              match foldBinOp op3 a b with
              | some r =>
                  let (rIdx, constants') := addConstList constants r
                  (((code.set i (.const rIdx)).set (i + 1) .nop).set (i + 2)
                      .nop,
                    constants')
              | none => (code, constants)
          | none => (code, constants)
      | _, _ => (code, constants)
  | _, _ => (code, constants)

/-- The `while i + 2 < len` scan of `Optimizer::fold_constants`; the code
length is loop-invariant, so `length + 1` fuel always suffices. -/
def foldConstantsLoop : Nat → List OpCode → List Value → Nat →
    List OpCode × List Value
  | 0, code, constants, _ => (code, constants)
  | fuel + 1, code, constants, i =>
      if i + 2 < code.length then
        let (code', constants') := foldConstantsAt code constants i
        foldConstantsLoop fuel code' constants' (i + 1)
      else (code, constants)

/-- Constant-folding pass (`Optimizer::fold_constants`), ending in Nop
compaction. -/
def foldConstants (f : CompiledFunction) : CompiledFunction :=
  let (code, constants) :=
    foldConstantsLoop (f.code.length + 1) f.code f.constants 0
  removeNops { f with code := code, constants := constants }

/-- One iteration body of `Optimizer::peephole_optimize` at index `i`:
the three pattern groups apply in sequence to the current code, exactly
as the source's three `if` blocks read the possibly-updated `func.code`. -/
def peepholeAt (code : List OpCode) (constants : List Value) (i : Nat) :
    List OpCode :=
  let code1 :=
    if i + 1 < code.length then
      match code.get? i, code.get? (i + 1) with
      | some .dup, some .pop => (code.set i .nop).set (i + 1) .nop
      | some .not, some .not => (code.set i .nop).set (i + 1) .nop
      | some .neg, some .neg => (code.set i .nop).set (i + 1) .nop
      | _, _ => code
    else code
  let code2 :=
    match code1.get? i with
    | some (.jump target) => if target = i + 1 then code1.set i .nop else code1
    | _ => code1
  if i + 1 < code2.length then
    match code2.get? i with
    | some (.const cIdx) =>
        match constants.get? cIdx with
        | some (.bool true) =>
            match code2.get? (i + 1) with
            | some (.jumpIfFalse _) => (code2.set i .nop).set (i + 1) .nop
            | _ => code2
        | some (.bool false) =>
            match code2.get? (i + 1) with
            | some (.jumpIfFalse target) =>
                (code2.set i .nop).set (i + 1) (.jump target)
            | _ => code2
        | _ => code2
    | _ => code2
  else code2

/-- The `while i < len` scan of `Optimizer::peephole_optimize`. -/
def peepholeLoop : Nat → List OpCode → List Value → Nat → List OpCode
  | 0, code, _, _ => code
  | fuel + 1, code, constants, i =>
      if i < code.length then
        peepholeLoop fuel (peepholeAt code constants i) constants (i + 1)
      else code

/-- Peephole pass (`Optimizer::peephole_optimize`), ending in Nop
compaction. -/
def peepholeOptimize (f : CompiledFunction) : CompiledFunction :=
  removeNops
    { f with code := peepholeLoop (f.code.length + 1) f.code f.constants 0 }

/-- Control-flow successors of instruction `i` (the `match` inside the
worklist of `Optimizer::eliminate_dead_code`): jumps follow their
targets, conditional jumps additionally fall through, `Return`/`Halt`
stop, everything else falls through. -/
def succsOf (code : List OpCode) (i : Nat) : List Nat :=
  match code.get? i with
  | some (.jump target) => [target]
  | some (.jumpIfFalse target) => [target, i + 1]
  | some (.jumpIfTrue target) => [target, i + 1]
  | some .ret => []
  | some .halt => []
  | some _ => [i + 1]
  | none => []

/-- One saturation step of reachability: add every in-range successor of
an already-reachable instruction (indices `≥ len` are skipped by the
worklist's bound check). -/
def reachStep (code : List OpCode) (s : Finset ℕ) : Finset ℕ :=
  s ∪ s.biUnion fun i => ((succsOf code i).filter (· < code.length)).toFinset

/-- The set of reachable instruction indices.  The source's worklist
computes the least set containing `0` and closed under in-range
successors; iterating the monotone step `length` times from `{0}`
saturates to exactly that set (proved in `reachStep_reachSet` below). -/
def reachSet (code : List OpCode) : Finset ℕ :=
  (reachStep code)^[code.length] {0}

/-- Replace the instructions at unreachable indices with `Nop` (the
`for (i, is_reachable) in reachable.iter().enumerate()` loop of
`eliminate_dead_code`); `start` is the index of the list head. -/
def markNopsFrom (r : Finset ℕ) : Nat → List OpCode → List OpCode
  | _, [] => []
  | start, op :: rest =>
      (if start ∈ r then op else .nop) :: markNopsFrom r (start + 1) rest

/-- Dead-code elimination (`Optimizer::eliminate_dead_code`): empty code
returns unchanged; otherwise unreachable instructions become `Nop` and
the code is compacted. -/
def eliminateDeadCode (f : CompiledFunction) : CompiledFunction :=
  if f.code.isEmpty then f
  else
    removeNops { f with code := markNopsFrom (reachSet f.code) 0 f.code }

/-- Count of retained (non-`Nop`) instructions; the length of what a
Nop compaction keeps. -/
def keptCount (l : List OpCode) : Nat :=
  (l.filter fun op => op ≠ OpCode.nop).length

/-- The three passes in order on one function (`Optimizer::optimize` with
the constructor's default flags, all enabled). -/
def optimizeFunction (f : CompiledFunction) : CompiledFunction :=
  eliminateDeadCode (peepholeOptimize (foldConstants f))

/-- Whole-program optimization (`Optimizer::optimize`). -/
def optimizeProgram (p : CompiledProgram) : CompiledProgram :=
  { p with functions := p.functions.map optimizeFunction }

/-- Capabilities (`security::Capability`); `PathBuf` parameters are
carried as strings. -/
inductive Capability where
  | fileRead (path : Option String)
  | fileWrite (path : Option String)
  | execute (cmd : Option String)
  | network (host : Option String)
  | environment (var : Option String)
  | process
  | systemInfo
  | crypto
  | clipboard
  | notify
  | custom (name : String)
deriving DecidableEq, Repr

/-- A granted capability with metadata (`security::GrantedCapability`);
times are unix-second `Nat`s. -/
structure GrantedCapability where
  capability : Capability
  grantedAt : Nat
  expiresAt : Option Nat
  grantedBy : String
  reason : Option String
  revoked : Bool
deriving DecidableEq, Repr

/-- Validity of a grant at the current time
(`GrantedCapability::is_valid`): not revoked, and `now` not past the
expiry when one is set. -/
def GrantedCapability.isValid (g : GrantedCapability) (now : Nat) : Bool :=
  if g.revoked then false
  else
    match g.expiresAt with
    | some expires => !(decide (now > expires))
    | none => true

/-- The registry's grant table (`CapabilityRegistry::capabilities`),
modelled by its `HashMap::get` behaviour: a total function from scope to
the (possibly empty) list of its grants.  Only `get` is used by
`has_capability`. -/
def CapTable : Type := String → List GrantedCapability

/-- Wildcard/equality match (`CapabilityRegistry::capability_matches`):
the five parameterised kinds match any request of the same kind when
granted without a parameter; everything else falls back to equality. -/
def capabilityMatches (granted requested : Capability) : Bool :=
  match granted, requested with
  | .fileRead none, .fileRead _ => true
  | .fileWrite none, .fileWrite _ => true
  | .execute none, .execute _ => true
  | .network none, .network _ => true
  | .environment none, .environment _ => true
  | _, _ => granted = requested

/-- Scope query (`CapabilityRegistry::has_capability`): scan the exact
scope for an equal-and-valid or matching-and-valid grant, then the global
scope `"*"` for a matching-and-valid grant. -/
def hasCapability (table : CapTable) (now : Nat) (scope : String)
    (capability : Capability) : Bool :=
  (table scope).any
    (fun g =>
      (decide (g.capability = capability) && g.isValid now) ||
      (capabilityMatches g.capability capability && g.isValid now)) ||
  (table "*").any
    (fun g => capabilityMatches g.capability capability && g.isValid now)

/-- Consent duration policy (`security::consent::ConsentDuration`). -/
inductive ConsentDuration where
  | session | day | week | forever | once
deriving DecidableEq, Repr

/-- Duration tag written to the consent file (the `match` in
`ConsentStore::save`). -/
def durationTag : ConsentDuration → String
  | .session => "session"
  | .day => "day"
  | .week => "week"
  | .forever => "forever"
  | .once => "once"

/-- A stored consent decision (`security::consent::StoredConsent`). -/
structure StoredConsent where
  scope : String
  capability : String
  granted : Bool
  timestamp : Nat
  remember : ConsentDuration
deriving DecidableEq, Repr

/-- Rust `str::split('|')` on a character list: the pieces between
separators, empty pieces included. -/
def splitPipe : List Char → List (List Char)
  | [] => [[]]
  | c :: rest =>
      if c = '|' then [] :: splitPipe rest
      else
        match splitPipe rest with
        | [] => [[c]]
        | piece :: pieces => (c :: piece) :: pieces

/-- Field split of a consent line (`line.split('|').collect()`). -/
def splitFields (line : String) : List String :=
  (splitPipe line.data).map String.mk

/-- The record line `ConsentStore::save` writes for one consent (without
the trailing newline `push_str` adds). -/
def formatConsentLine (c : StoredConsent) : String :=
  c.scope ++ "|" ++ c.capability ++ "|" ++
    (if c.granted then "yes" else "no") ++ "|" ++
    toString c.timestamp ++ "|" ++ durationTag c.remember

/-- Duration-tag parse arm of `ConsentStore::parse_line`. -/
def parseDurationTag (s : String) : Option ConsentDuration :=
  if s = "session" then some .session
  else if s = "day" then some .day
  else if s = "week" then some .week
  else if s = "forever" then some .forever
  else if s = "once" then some .once
  else none

/-- Line parse (`ConsentStore::parse_line`): exactly five `|`-separated
fields; the third is the granted flag (`yes` means granted, anything else
not), the fourth a `u64` timestamp (modelled by `String.toNat?`, which
agrees with `str::parse::<u64>` on plain decimal input), the fifth a
known duration tag. -/
def parseConsentLine (line : String) : Option StoredConsent :=
  match splitFields line with
  | [scope, capability, grantedStr, timestampStr, durationStr] =>
      match timestampStr.toNat? with
      | none => none
      | some timestamp =>
          match parseDurationTag durationStr with
          | none => none
          | some remember =>
              some ⟨scope, capability, grantedStr = "yes", timestamp, remember⟩
  | _ => none

/-- Concrete program `to main() { give back "a" < "b"; }`, exercising the
string comparison both engines implement. -/
def c1prog : Program :=
  ⟨[.function
      { name := "main", params := [], hello := none, goodbye := none,
        body :=
          [.ret (.binary .lt (.literal (.string "a"))
            (.literal (.string "b")))] }]⟩

/-- The tree-walker's final value for a program (`none` on any non-value
outcome). -/
def interpValueOf (fuel : Nat) (p : Program) : Option Value :=
  match interpRun fuel p with
  | .ok _ v => v
  | _ => none

/-- Concrete program `to main() { give back 1 % 0; }`. -/
def c4prog : Program :=
  ⟨[.function
      { name := "main", params := [], hello := none, goodbye := none,
        body :=
          [.ret (.binary .mod (.literal (.integer 1))
            (.literal (.integer 0)))] }]⟩

/-- Environment lookup of `x` after running a conditional whose taken
branch declares `x` (`none` on any non-`ok` outcome). -/
def c5After : Option Value :=
  match execStatement 10 InterpState.new
      (.conditional (.literal (.bool true))
        [.varDecl "x" (.literal (.integer 1)) none] none) with
  | .ok st _ => st.env.get "x"
  | _ => none

/-- Wildcard subsumption as the claim words it: the granted capability
has no inner parameter and is of the same kind as the requested one. -/
def isWildcardOfKind (granted requested : Capability) : Bool :=
  match granted, requested with
  | .fileRead none, .fileRead _ => true
  | .fileWrite none, .fileWrite _ => true
  | .execute none, .execute _ => true
  | .network none, .network _ => true
  | .environment none, .environment _ => true
  | _, _ => false

/-- A grant of `Crypto` to every scope, expiring at time 5 (as built by
`grant_temporary`). -/
def c8Grant : GrantedCapability :=
  ⟨.crypto, 0, some 5, "test", none, false⟩

/-- A table holding `c8Grant` in every scope (only the queried scope is
ever read). -/
def c8Table : CapTable := fun _ => [c8Grant]

/-- Concrete consent record used to exhibit the written line format. -/
def c9Example : StoredConsent := ⟨"main", "file:read", true, 5, .day⟩

/-- Non-idempotence input for constant folding: `Const 1; Const 2;
Const 3; Add; Add` — the first pass folds the inner pair, and the Nop
compaction creates a fresh `Const; Const; Add` triple. -/
def c7FoldEx : CompiledFunction :=
  { name := "t2", arity := 0, locals := 0,
    code := [.const 0, .const 1, .const 2, .add, .add],
    constants := [.int 1, .int 2, .int 3] }

/-- Non-idempotence input for peephole: `Dup; Dup; Pop; Pop; Return` —
the first pass removes the inner `Dup; Pop`, and the compaction makes the
outer pair adjacent. -/
def c7PeepEx : CompiledFunction :=
  { name := "t3", arity := 0, locals := 0,
    code := [.dup, .dup, .pop, .pop, .ret],
    constants := [] }

@[simp] theorem IRes.ibind_ok {α β : Type} (st : InterpState) (a : α)
    (f : InterpState → α → IRes β) : IRes.bind (.ok st a) f = f st a := rfl

@[simp] theorem IRes.ibind_err {α β : Type} (st : InterpState)
    (e : RuntimeError) (f : InterpState → α → IRes β) :
    IRes.bind (.err st e) f = .err st e := rfl

@[simp] theorem PRes.lift_ok {α : Type} (st : InterpState) (a : α) :
    PRes.lift st (.ok a) = .ok st a := rfl

@[simp] theorem PRes.lift_err {α : Type} (st : InterpState)
    (e : RuntimeError) : PRes.lift st (.err e : PRes α) = .err st e := rfl

@[simp] theorem MRes.mbind_ok {α β : Type} (a : α) (f : α → MRes β) :
    MRes.bind (.ok a) f = f a := rfl

@[simp] theorem MRes.mbind_err {α β : Type} (m : String) (f : α → MRes β) :
    MRes.bind (.err m) f = .err m := rfl

/-- Insert-then-lookup on association lists finds the inserted value. -/
theorem lookupAssoc_insertAssoc_self {α : Type} (l : List (String × α))
    (key : String) (v : α) : lookupAssoc (insertAssoc l key v) key = some v := by
  induction l with
  | nil => simp [insertAssoc, lookupAssoc]
  | cons kv rest ih =>
      by_cases h : kv.1 = key
      · simp [insertAssoc, lookupAssoc, h]
      · simp [insertAssoc, lookupAssoc, h, ih]

/-- C10: in the tree-walking interpreter, a constructor pattern named
`Oops` matches every `Oops` value regardless of its inner pattern — the
test succeeds for every inner pattern `p`, including a non-matching
literal — and binding happens only after arm selection, binding the error
message as a `String` value against `p`. -/
theorem c10_oops_pattern_matches_any_inner :
    (∀ (p : Pattern) (msg : String),
        patternMatches (.constructor "Oops" (some p)) (.oops msg) = true) ∧
    (∀ (p : Pattern) (msg : String) (env : Environment),
        bindPattern (.constructor "Oops" (some p)) (.oops msg) env =
          bindPattern p (.string msg) env) := by
  constructor
  · intro p msg
    simp [patternMatches]
  · intro p msg env
    simp [bindPattern]

/-- C2 counterexample: with a falsy left operand, `and` still evaluates
the right operand, so the division-by-zero error the right operand
signals does occur — the claim's short-circuit behaviour fails at this
input. -/
theorem c2_and_or_not_short_circuit :
    evaluate 10 InterpState.new
        (.binary .and (.literal (.bool false))
          (.binary .div (.literal (.integer 1)) (.literal (.integer 0)))) =
      .err InterpState.new .divisionByZero ∧
    evaluate 10 InterpState.new
        (.binary .or (.literal (.bool true))
          (.binary .div (.literal (.integer 1)) (.literal (.integer 0)))) =
      .err InterpState.new .divisionByZero := by
  exact ⟨rfl, rfl⟩

/-- C2 amended: `and` and `or` evaluate both operands eagerly.  An error
from the right operand propagates regardless of the left value, and when
both operands evaluate, the result is the `Bool` of the truthiness
conjunction respectively disjunction. -/
theorem c2_amended_eager_and_or :
    (∀ (op : BinaryOp), op = .and ∨ op = .or →
      ∀ (fuel : Nat) (st st1 stE : InterpState) (l r : Expr) (vl : Value)
        (E : RuntimeError),
        evaluate fuel st l = .ok st1 vl →
        evaluate fuel st1 r = .err stE E →
        evaluate (fuel + 1) st (.binary op l r) = .err stE E) ∧
    (∀ (fuel : Nat) (st st1 st2 : InterpState) (l r : Expr) (vl vr : Value),
        evaluate fuel st l = .ok st1 vl →
        evaluate fuel st1 r = .ok st2 vr →
        evaluate (fuel + 1) st (.binary .and l r) =
          .ok st2 (.bool (vl.isTruthy && vr.isTruthy)) ∧
        evaluate (fuel + 1) st (.binary .or l r) =
          .ok st2 (.bool (vl.isTruthy || vr.isTruthy))) := by
  constructor
  · rintro op (rfl | rfl) fuel st st1 stE l r vl E hl hr <;>
      simp [evaluate, hl, hr]
  · intro fuel st st1 st2 l r vl vr hl hr
    constructor <;> simp [evaluate, hl, hr, applyBinaryOp]

/-- C2 amended, witness: `true or (1/0)` evaluates the right operand and
propagates its division-by-zero error. -/
theorem c2_amended_eager_and_or_witness :
    evaluate 10 InterpState.new
        (.binary .or (.literal (.bool true))
          (.binary .div (.literal (.integer 1)) (.literal (.integer 0)))) =
      .err InterpState.new .divisionByZero :=
  c2_amended_eager_and_or.1 .or (Or.inr rfl) 9 InterpState.new
    InterpState.new InterpState.new (.literal (.bool true))
    (.binary .div (.literal (.integer 1)) (.literal (.integer 0)))
    (.bool true) .divisionByZero rfl rfl

/-- C4: modulo by zero does not signal a division-by-zero error — in both
engines it reaches Rust's `%` with a zero divisor, a panic.  The first
conjunct is the interpreter's operator application for every left
operand, the next two run `to main() { give back 1 % 0; }` through the
tree-walker and through compile + optimize + VM, and the last conjunct
shows the intended guard does exist for division. -/
theorem c4_mod_zero_panics :
    (∀ a : Int, applyBinaryOp .mod (.int a) (.int 0) = .panicOut) ∧
    interpRun 100 c4prog = .panicOut ∧
    (compileProgram c4prog).map (fun cp => machineRun 100 (optimizeProgram cp))
      = some .panicOut ∧
    applyBinaryOp .div (.int 1) (.int 0) = .err .divisionByZero := by
  refine ⟨fun a => ?_, rfl, rfl, rfl⟩
  simp [applyBinaryOp]

/-- C5 counterexample: after a conditional whose taken branch declares
`x`, the binding `x = 1` is still visible — the claim that it is no
longer visible fails at this input. -/
theorem c5_branch_binding_still_visible : c5After = some (.int 1) := rfl

/-- C5 amended: the taken branch of a conditional executes in the
enclosing scope, not a fresh one — a variable declared inside the taken
branch is defined in the current innermost scope and remains visible
after the conditional completes. -/
theorem c5_amended_no_fresh_scope :
    (∀ (fuel : Nat) (st st1 : InterpState) (name : String) (e : Expr)
        (v : Value),
        evaluate fuel st e = .ok st1 v →
        execStatement (fuel + 3) st
            (.conditional (.literal (.bool true)) [.varDecl name e none]
              none) =
          .ok { st1 with env := st1.env.define name v } .cont) ∧
    (∀ (env : Environment) (name : String) (v : Value),
        env.scopes ≠ [] → (env.define name v).get name = some v) := by
  constructor
  · intro fuel st st1 name e v he
    simp [execStatement, evaluate, literalToValue, Value.isTruthy, execBlock,
      he]
  · intro env name v hne
    match env with
    | ⟨[]⟩ => exact absurd rfl hne
    | ⟨s :: rest⟩ =>
        show lookupScopes (insertAssoc s name v :: rest) name = some v
        simp [lookupScopes, lookupAssoc_insertAssoc_self]

/-- C5 amended, witness: declaring `x = 1` in a taken branch leaves
`x ↦ 1` in the enclosing environment, where it is still visible. -/
theorem c5_amended_no_fresh_scope_witness :
    execStatement 4 InterpState.new
        (.conditional (.literal (.bool true))
          [.varDecl "x" (.literal (.integer 1)) none] none) =
      .ok { InterpState.new with
            env := InterpState.new.env.define "x" (.int 1) } .cont ∧
    (InterpState.new.env.define "x" (.int 1)).get "x" = some (.int 1) :=
  ⟨c5_amended_no_fresh_scope.1 1 InterpState.new InterpState.new "x"
      (.literal (.integer 1)) (.int 1) rfl,
    c5_amended_no_fresh_scope.2 InterpState.new.env "x" (.int 1)
      (by simp [InterpState.new, Environment.new])⟩

/-- C6 counterexample: `getOkay` and `getOops` are not built-ins — the
builtin dispatch returns "not a builtin" for both, and applying either in
a fresh interpreter signals an undefined-function error instead of
returning the inner value or message. -/
theorem c6_getokay_getoops_not_builtin :
    callBuiltin "getOkay" [.okay (.int 7)] = .ok none ∧
    callBuiltin "getOops" [.oops "boom"] = .ok none ∧
    evaluate 10 InterpState.new
        (.call "getOkay" [.okay (.literal (.integer 7))]) =
      .err InterpState.new (.undefinedFunction "getOkay") ∧
    evaluate 10 InterpState.new
        (.call "getOops" [.oops (.literal (.string "boom"))]) =
      .err InterpState.new (.undefinedFunction "getOops") := by
  exact ⟨rfl, rfl, rfl, rfl⟩

/-- C6 amended: the interpreter has no `getOkay`/`getOops` built-ins;
with no variable or registered function of that name, applying either
signals an undefined-function error.  The related built-in `getError`
returns the message when its argument is an `Oops` value and `Unit`
otherwise, and `unwrapOr` returns the inner value on `Okay` and the
default on `Oops`. -/
theorem c6_amended_no_getokay_builtin :
    (∀ args, callBuiltin "getOkay" args = .ok none) ∧
    (∀ args, callBuiltin "getOops" args = .ok none) ∧
    (∀ (fuel : Nat) (st st1 : InterpState) (args : List Expr)
        (vals : List Value) (name : String),
        (name = "getOkay" ∨ name = "getOops") →
        evalArgs (fuel + 1) st args = .ok st1 vals →
        st1.env.get name = none →
        lookupAssoc st1.functions name = none →
        evaluate (fuel + 2) st (.call name args) =
          .err st1 (.undefinedFunction name)) ∧
    (∀ v, callBuiltin "getError" [v] =
        .ok (some (match v with | .oops e => .string e | _ => .unit))) ∧
    (∀ v d, callBuiltin "unwrapOr" [.okay v, d] = .ok (some v) ∧
        ∀ msg, callBuiltin "unwrapOr" [.oops msg, d] = .ok (some d)) := by
  refine ⟨fun args => rfl, fun args => rfl, ?_, ?_, ?_⟩
  · rintro fuel st st1 args vals name (rfl | rfl) hargs henv hfn <;>
      simp [evaluate, hargs, callBuiltin, callFunction, henv, hfn]
  · intro v
    cases v <;> rfl
  · intro v d
    exact ⟨rfl, fun msg => rfl⟩

/-- C6 amended, witness: applying `getOkay` to a literal in a fresh
interpreter signals the undefined-function error. -/
theorem c6_amended_no_getokay_builtin_witness :
    evaluate 10 InterpState.new (.call "getOkay" [.literal (.integer 1)]) =
      .err InterpState.new (.undefinedFunction "getOkay") :=
  c6_amended_no_getokay_builtin.2.2.1 8 InterpState.new InterpState.new
    [.literal (.integer 1)] [.int 1] "getOkay" (Or.inl rfl) rfl rfl rfl

/-- The source's wildcard match is exactly equality-or-wildcard as the
spec words it. -/
theorem capabilityMatches_eq_or_wildcard (granted requested : Capability) :
    capabilityMatches granted requested =
      (decide (granted = requested) || isWildcardOfKind granted requested) := by
  cases granted <;> cases requested <;>
    simp [capabilityMatches, isWildcardOfKind] <;>
    rename_i og _ <;> cases og <;> simp

/-- C3: `has_capability(scope, cap)` is true iff some grant recorded
under the given scope or under the distinguished scope `"*"` is
non-revoked, non-expired at the current time, and its capability either
equals `cap` or is a wildcard (inner parameter absent) of the same kind
as `cap`. -/
theorem c3_has_capability_iff (table : CapTable) (now : Nat) (scope : String)
    (cap : Capability) :
    hasCapability table now scope cap = true ↔
      ∃ g : GrantedCapability,
        (g ∈ table scope ∨ g ∈ table "*") ∧
        g.isValid now = true ∧
        (g.capability = cap ∨ isWildcardOfKind g.capability cap = true) := by
  simp only [hasCapability, Bool.or_eq_true, List.any_eq_true,
    capabilityMatches_eq_or_wildcard, Bool.and_eq_true, decide_eq_true_eq]
  constructor
  · rintro (⟨g, hg, (⟨heq, hval⟩ | ⟨hmatch | hmatch, hval⟩)⟩ |
        ⟨g, hg, hmatch | hmatch, hval⟩)
    · exact ⟨g, Or.inl hg, hval, Or.inl heq⟩
    · exact ⟨g, Or.inl hg, hval, Or.inl hmatch⟩
    · exact ⟨g, Or.inl hg, hval, Or.inr hmatch⟩
    · exact ⟨g, Or.inr hg, hval, Or.inl hmatch⟩
    · exact ⟨g, Or.inr hg, hval, Or.inr hmatch⟩
  · rintro ⟨g, hmem | hmem, hval, hcap | hcap⟩
    · exact Or.inl ⟨g, hmem, Or.inr ⟨Or.inl hcap, hval⟩⟩
    · exact Or.inl ⟨g, hmem, Or.inr ⟨Or.inr hcap, hval⟩⟩
    · exact Or.inr ⟨g, hmem, Or.inl hcap, hval⟩
    · exact Or.inr ⟨g, hmem, Or.inr hcap, hval⟩

/-- C3 witness: a wildcard `FileRead` grant in the global scope makes
`has_capability("main", FileRead("/etc/passwd"))` true. -/
theorem c3_has_capability_iff_witness :
    hasCapability
        (fun s => if s = "*" then
          [⟨.fileRead none, 0, none, "test", none, false⟩] else [])
        0 "main" (.fileRead (some "/etc/passwd")) = true :=
  (c3_has_capability_iff _ 0 "main" (.fileRead (some "/etc/passwd"))).mpr
    ⟨⟨.fileRead none, 0, none, "test", none, false⟩,
      Or.inr (by simp), rfl, Or.inr rfl⟩

/-- Pointwise-equal predicates give equal `any` results. -/
theorem list_any_congr {α : Type} {l : List α} {p q : α → Bool}
    (h : ∀ a ∈ l, p a = q a) : l.any p = l.any q := by
  induction l with
  | nil => rfl
  | cons a rest ih =>
      simp only [List.any_cons, h a (List.mem_cons_self a rest),
        ih fun b hb => h b (List.mem_cons_of_mem a hb)]

/-- Validity depends on the current time only through the
past-expiry comparisons. -/
theorem isValid_time_congr (g : GrantedCapability) (t1 t2 : Nat)
    (h : ∀ e, g.expiresAt = some e → (decide (t1 > e) = decide (t2 > e))) :
    g.isValid t1 = g.isValid t2 := by
  unfold GrantedCapability.isValid
  cases hrev : g.revoked
  · cases hexp : g.expiresAt with
    | none => simp
    | some e => simp [h e hexp]
  · simp

/-- C8 counterexample: a timed grant (expiry 5) answers `true` at time 3
and `false` at time 10 with no grant, revoke or request in between — the
answer is not stable between operations. -/
theorem c8_expiry_changes_answer_between_operations :
    hasCapability c8Table 3 "main" .crypto = true ∧
    hasCapability c8Table 10 "main" .crypto = false := ⟨rfl, rfl⟩

/-- C8 amended: between two calls with no grant, revoke or request in
between, `has_capability` returns the same answer provided no recorded
grant's expiry is crossed between the two call times (for every grant
with an expiry `e`, `t1 > e` iff `t2 > e`); the answer can otherwise flip
by a timed grant expiring. -/
theorem c8_amended_stable_without_expiry_crossing (table : CapTable)
    (scope : String) (cap : Capability) (t1 t2 : Nat)
    (h : ∀ g : GrantedCapability, (g ∈ table scope ∨ g ∈ table "*") →
      ∀ e, g.expiresAt = some e → (decide (t1 > e) = decide (t2 > e))) :
    hasCapability table t1 scope cap = hasCapability table t2 scope cap := by
  unfold hasCapability
  have hexact : ∀ g ∈ table scope,
      ((decide (g.capability = cap) && g.isValid t1) ||
        (capabilityMatches g.capability cap && g.isValid t1)) =
      ((decide (g.capability = cap) && g.isValid t2) ||
        (capabilityMatches g.capability cap && g.isValid t2)) := by
    intro g hg
    rw [isValid_time_congr g t1 t2 (h g (Or.inl hg))]
  have hstar : ∀ g ∈ table "*",
      (capabilityMatches g.capability cap && g.isValid t1) =
      (capabilityMatches g.capability cap && g.isValid t2) := by
    intro g hg
    rw [isValid_time_congr g t1 t2 (h g (Or.inr hg))]
  rw [list_any_congr hexact, list_any_congr hstar]

/-- C8 amended, witness: between times 3 and 4 the expiry 5 of the only
grant is not crossed, and the answers agree. -/
theorem c8_amended_stable_witness :
    hasCapability c8Table 3 "main" .crypto =
      hasCapability c8Table 4 "main" .crypto :=
  c8_amended_stable_without_expiry_crossing c8Table "main" .crypto 3 4
    (by
      rintro g (hg | hg) e he <;>
        · simp only [c8Table, List.mem_singleton] at hg
          subst hg
          simp only [c8Grant] at he
          injection he with he
          subst he
          rfl)

/-- C1: the pipelines disagree on a terminating program with no
side-effecting primitives.  For `to main() { give back "a" < "b"; }` the
tree-walker returns `Bool(true)` (lexicographic string comparison in
`apply_binary_op`), while compile + optimize + VM returns `Bool(false)`
(the VM's `Lt` catch-all arm yields `false` for string operands), and the
two values are structurally unequal. -/
theorem c1_interpreter_vm_divergence :
    interpValueOf 100 c1prog = some (.bool true) ∧
    (compileProgram c1prog).map
        (fun cp => machineRun 100 (optimizeProgram cp)) =
      some (.ok (.bool false)) ∧
    beqValue (.bool true) (.bool false) = false := ⟨rfl, rfl, rfl⟩

/-- A list with no pipe character splits into itself. -/
theorem splitPipe_no_pipe (a : List Char) (ha : '|' ∉ a) :
    splitPipe a = [a] := by
  induction a with
  | nil => rfl
  | cons c rest ih =>
      have hc : ¬c = '|' := fun h => ha (h ▸ List.mem_cons_self c rest)
      have hrest : '|' ∉ rest := fun h => ha (List.mem_cons_of_mem c h)
      simp [splitPipe, hc, ih hrest]

/-- Splitting at the first pipe after a pipe-free prefix. -/
theorem splitPipe_append (a b : List Char) (ha : '|' ∉ a) :
    splitPipe (a ++ '|' :: b) = a :: splitPipe b := by
  induction a with
  | nil => simp [splitPipe]
  | cons c rest ih =>
      have hc : ¬c = '|' := fun h => ha (h ▸ List.mem_cons_self c rest)
      have hrest : '|' ∉ rest := fun h => ha (List.mem_cons_of_mem c h)
      have h2 := ih hrest
      simp only [List.cons_append, splitPipe, if_neg hc, List.append_eq, h2]

/-- No digit character is the pipe. -/
theorem digitChar_ne_pipe (n : Nat) : Nat.digitChar n ≠ '|' := by
  by_cases h : n < 16
  · interval_cases n <;> decide
  · have h0 : n ≠ 0 := by omega
    have h1 : n ≠ 1 := by omega
    have h2 : n ≠ 2 := by omega
    have h3 : n ≠ 3 := by omega
    have h4 : n ≠ 4 := by omega
    have h5 : n ≠ 5 := by omega
    have h6 : n ≠ 6 := by omega
    have h7 : n ≠ 7 := by omega
    have h8 : n ≠ 8 := by omega
    have h9 : n ≠ 9 := by omega
    have h10 : n ≠ 10 := by omega
    have h11 : n ≠ 11 := by omega
    have h12 : n ≠ 12 := by omega
    have h13 : n ≠ 13 := by omega
    have h14 : n ≠ 14 := by omega
    have h15 : n ≠ 15 := by omega
    simp only [Nat.digitChar, h0, h1, h2, h3, h4, h5, h6, h7, h8, h9, h10,
      h11, h12, h13, h14, h15, if_false]
    decide

/-- `Nat.toDigitsCore` yields digit characters only, never the pipe. -/
theorem toDigitsCore_ne_pipe :
    ∀ (fuel n : Nat) (acc : List Char), (∀ c ∈ acc, c ≠ '|') →
      ∀ c ∈ Nat.toDigitsCore 10 fuel n acc, c ≠ '|' := by
  intro fuel
  induction fuel with
  | zero => intro n acc hacc c hc; exact hacc c hc
  | succ fuel ih =>
      intro n acc hacc c hc
      rw [Nat.toDigitsCore] at hc
      have hd : ∀ x ∈ Nat.digitChar (n % 10) :: acc, x ≠ '|' := by
        intro x hx
        rcases List.mem_cons.mp hx with rfl | hx
        · exact digitChar_ne_pipe _
        · exact hacc x hx
      split at hc
      · exact hd c hc
      · exact ih _ _ hd c hc

/-- The decimal rendering of a `Nat` contains no pipe. -/
theorem toString_nat_ne_pipe (n : Nat) : '|' ∉ (toString n).data := by
  intro h
  exact toDigitsCore_ne_pipe (n + 1) n [] (by simp) '|' h rfl

/-- Rebuilding a string from its characters is the identity. -/
theorem string_mk_data (s : String) : String.mk s.data = s := rfl

/-- C9 counterexample: the written record line for a concrete consent has
exactly five `|`-separated fields, not six, and the loader rejects a
six-field line of the claimed shape. -/
theorem c9_line_has_five_fields_not_six :
    splitFields (formatConsentLine c9Example) =
      ["main", "file:read", "yes", "5", "day"] ∧
    (splitFields (formatConsentLine c9Example)).length ≠ 6 ∧
    parseConsentLine "main|file:read|yes|no|5|day" = none := by
  refine ⟨rfl, by decide, rfl⟩

/-- C9 amended: every record line the consent store writes, and every
line its loader accepts, consists of exactly five `|`-separated fields in
the order scope, capability string, granted flag (`yes` when granted,
`no` otherwise), unix-seconds timestamp, duration tag drawn from
{session, once, day, week, forever} — provided scope and capability
contain no `|` themselves (the writer does not escape them). -/
theorem c9_amended_five_field_lines :
    (∀ c : StoredConsent, '|' ∉ c.scope.data → '|' ∉ c.capability.data →
        splitFields (formatConsentLine c) =
          [c.scope, c.capability, if c.granted then "yes" else "no",
            toString c.timestamp, durationTag c.remember]) ∧
    (∀ (line : String) (c : StoredConsent), parseConsentLine line = some c →
        ∃ grantedStr timestampStr durationStr,
          splitFields line =
            [c.scope, c.capability, grantedStr, timestampStr, durationStr] ∧
          timestampStr.toNat? = some c.timestamp ∧
          parseDurationTag durationStr = some c.remember ∧
          c.granted = (grantedStr = "yes")) := by
  constructor
  · intro c hscope hcap
    have hflag : '|' ∉ (if c.granted then "yes" else "no").data := by
      cases c.granted <;> decide
    have hts : '|' ∉ (toString c.timestamp).data := toString_nat_ne_pipe _
    have htag : '|' ∉ (durationTag c.remember).data := by
      cases c.remember <;> decide
    have hdata : (formatConsentLine c).data =
        c.scope.data ++ '|' :: (c.capability.data ++ '|' ::
          ((if c.granted then "yes" else "no").data ++ '|' ::
            ((toString c.timestamp).data ++ '|' ::
              (durationTag c.remember).data))) := by
      simp [formatConsentLine, String.data_append]
    rw [splitFields, hdata, splitPipe_append _ _ hscope,
      splitPipe_append _ _ hcap, splitPipe_append _ _ hflag,
      splitPipe_append _ _ hts, splitPipe_no_pipe _ htag]
    simp [string_mk_data]
  · intro line c hparse
    unfold parseConsentLine at hparse
    split at hparse
    next scope capability grantedStr timestampStr durationStr heq =>
      cases hts : timestampStr.toNat? with
      | none => rw [hts] at hparse; exact absurd hparse (by simp)
      | some timestamp =>
          rw [hts] at hparse
          cases hdur : parseDurationTag durationStr with
          | none => rw [hdur] at hparse; exact absurd hparse (by simp)
          | some remember =>
              rw [hdur] at hparse
              refine ⟨grantedStr, timestampStr, durationStr, ?_, ?_, ?_, ?_⟩ <;>
                cases hparse <;> simp [heq, hts, hdur]
    next => exact absurd hparse (by simp)

/-- C9 amended, witness: the concrete consent record renders to the
five-field line `main|file:read|yes|5|day`. -/
theorem c9_amended_five_field_lines_witness :
    splitFields (formatConsentLine c9Example) =
      ["main", "file:read", "yes", "5", "day"] :=
  c9_amended_five_field_lines.1 c9Example (by decide) (by decide)

/-- Kept-count of a cons. -/
theorem keptCount_cons (op : OpCode) (l : List OpCode) :
    keptCount (op :: l) = (if op = .nop then 0 else 1) + keptCount l := by
  by_cases h : op = OpCode.nop <;>
    (simp [keptCount, List.filter_cons, h]; try omega)

/-- Kept-count of an append. -/
theorem keptCount_append (a b : List OpCode) :
    keptCount (a ++ b) = keptCount a + keptCount b := by
  simp [keptCount, List.filter_append]

/-- The `new_indices` entries are the kept-counts of the prefixes. -/
theorem newIndicesAux_get? (l : List OpCode) :
    ∀ (acc t : Nat),
      (newIndicesAux l acc).get? t =
        if t < l.length then some (acc + keptCount (l.take t)) else none := by
  induction l with
  | nil => intro acc t; simp [newIndicesAux]
  | cons op rest ih =>
      intro acc t
      cases t with
      | zero => simp [newIndicesAux, keptCount]
      | succ t =>
          show (newIndicesAux rest _).get? t = _
          rw [ih]
          by_cases hop : op = OpCode.nop
          · simp [hop, List.take_succ_cons, keptCount_cons,
              Nat.succ_lt_succ_iff]
          · simp only [hop, if_false, List.take_succ_cons, keptCount_cons,
              List.length_cons, Nat.succ_lt_succ_iff]
            split
            · congr 1
              omega
            · rfl

/-- `new_indices` lookup. -/
theorem newIndices_get? (l : List OpCode) (t : Nat) :
    (newIndices l).get? t =
      if t < l.length then some (keptCount (l.take t)) else none := by
  simpa using newIndicesAux_get? l 0 t

/-- A kept element sits in the filtered list at its prefix kept-count. -/
theorem filter_get?_keptCount (l : List OpCode) :
    ∀ (i : Nat) (op : OpCode), l.get? i = some op → op ≠ .nop →
      (l.filter fun o => o ≠ OpCode.nop).get? (keptCount (l.take i)) =
        some op := by
  induction l with
  | nil => intro i op h; simp at h
  | cons a rest ih =>
      intro i op h hkeep
      cases i with
      | zero =>
          simp only [List.get?] at h
          cases h
          rw [List.take_zero, List.filter_cons, if_pos (by simpa using hkeep)]
          rfl
      | succ i =>
          simp only [List.get?] at h
          rw [List.take_succ_cons, keptCount_cons, List.filter_cons]
          by_cases ha : a = OpCode.nop
          · rw [if_pos ha, if_neg (by simpa using ha), Nat.zero_add]
            exact ih i op h hkeep
          · rw [if_neg ha, if_pos (by simpa using ha), Nat.add_comm,
              List.get?_cons_succ]
            exact ih i op h hkeep

/-- Every position of the filtered list is the image of a kept element at
its prefix kept-count. -/
theorem filter_get?_surj (l : List OpCode) :
    ∀ (j : Nat) (op : OpCode),
      (l.filter fun o => o ≠ OpCode.nop).get? j = some op →
      ∃ i, l.get? i = some op ∧ op ≠ .nop ∧ keptCount (l.take i) = j := by
  induction l with
  | nil => intro j op h; simp [keptCount] at h
  | cons a rest ih =>
      intro j op h
      by_cases ha : a = OpCode.nop
      · rw [List.filter_cons, if_neg (by simpa using ha)] at h
        obtain ⟨i, hget, hkeep, hcount⟩ := ih j op h
        refine ⟨i + 1, hget, hkeep, ?_⟩
        rw [List.take_succ_cons, keptCount_cons, if_pos ha, Nat.zero_add,
          hcount]
      · rw [List.filter_cons, if_pos (by simpa using ha)] at h
        cases j with
        | zero =>
            simp only [List.get?] at h
            cases h
            exact ⟨0, rfl, ha, by simp [keptCount]⟩
        | succ j =>
            simp only [List.get?] at h
            obtain ⟨i, hget, hkeep, hcount⟩ := ih j op h
            refine ⟨i + 1, hget, hkeep, ?_⟩
            rw [List.take_succ_cons, keptCount_cons, if_neg ha, hcount,
              Nat.add_comm]

/-- Prefix kept-counts never exceed the total. -/
theorem keptCount_take_le (l : List OpCode) (i : Nat) :
    keptCount (l.take i) ≤ keptCount l := by
  conv_rhs => rw [← List.take_append_drop i l]
  rw [keptCount_append]
  exact Nat.le_add_right _ _

/-- The prefix kept-count before a kept element is strictly below the
total. -/
theorem keptCount_take_lt (l : List OpCode) (i : Nat) (op : OpCode)
    (h : l.get? i = some op) (hkeep : op ≠ .nop) :
    keptCount (l.take i) < keptCount l := by
  induction l generalizing i with
  | nil => simp at h
  | cons a rest ih =>
      cases i with
      | zero =>
          simp only [List.get?] at h
          cases h
          rw [List.take_zero, keptCount_cons, if_neg hkeep]
          have : keptCount ([] : List OpCode) = 0 := rfl
          omega
      | succ i =>
          simp only [List.get?] at h
          have hlt := ih i h
          rw [List.take_succ_cons, keptCount_cons, keptCount_cons]
          omega

/-- Kept-count over a successor prefix. -/
theorem keptCount_take_succ (l : List OpCode) (i : Nat) (op : OpCode)
    (h : l.get? i = some op) :
    keptCount (l.take (i + 1)) =
      keptCount (l.take i) + (if op = .nop then 0 else 1) := by
  induction l generalizing i with
  | nil => simp at h
  | cons a rest ih =>
      cases i with
      | zero =>
          simp only [List.get?] at h
          cases h
          rw [List.take_succ_cons, List.take_zero, List.take_zero,
            keptCount_cons]
          have h0 : keptCount ([] : List OpCode) = 0 := rfl
          omega
      | succ i =>
          simp only [List.get?] at h
          rw [List.take_succ_cons, List.take_succ_cons, keptCount_cons,
            keptCount_cons, ih i h]
          omega

/-- Marking preserves length. -/
theorem markNopsFrom_length (r : Finset ℕ) :
    ∀ (start : Nat) (l : List OpCode),
      (markNopsFrom r start l).length = l.length := by
  intro start l
  induction l generalizing start with
  | nil => rfl
  | cons op rest ih => simp [markNopsFrom, ih]

/-- Pointwise description of marking. -/
theorem markNopsFrom_get? (r : Finset ℕ) :
    ∀ (start : Nat) (l : List OpCode) (i : Nat),
      (markNopsFrom r start l).get? i =
        (l.get? i).map fun op => if (start + i) ∈ r then op else .nop := by
  intro start l
  induction l generalizing start with
  | nil => intro i; simp [markNopsFrom]
  | cons op rest ih =>
      intro i
      cases i with
      | zero => simp [markNopsFrom]
      | succ i =>
          show (markNopsFrom r (start + 1) rest).get? i = _
          rw [ih (start + 1) i]
          have harith : start + 1 + i = start + (i + 1) := by omega
          rw [harith]
          rfl

/-- Marking with a set containing every index is the identity. -/
theorem markNopsFrom_id (r : Finset ℕ) :
    ∀ (start : Nat) (l : List OpCode),
      (∀ i, i < l.length → (start + i) ∈ r) → markNopsFrom r start l = l := by
  intro start l
  induction l generalizing start with
  | nil => intro _; rfl
  | cons op rest ih =>
      intro h
      have h0 : start ∈ r := by simpa using h 0 (Nat.succ_pos _)
      have hrest : ∀ i, i < rest.length → (start + 1 + i) ∈ r := by
        intro i hi
        have := h (i + 1) (Nat.succ_lt_succ hi)
        simpa [Nat.add_assoc, Nat.add_comm 1] using this
      simp [markNopsFrom, h0, ih (start + 1) hrest]

/-- Retargeting never creates or destroys a `Nop`. -/
theorem retargetOp_eq_nop (ni : List Nat) (op : OpCode) :
    retargetOp ni op = .nop ↔ op = .nop := by
  cases op <;> simp [retargetOp] <;> split <;> simp

/-- Retargeting commutes with the `Nop` filter. -/
theorem filter_map_retarget (ni : List Nat) (l : List OpCode) :
    ((l.map (retargetOp ni)).filter fun o => o ≠ OpCode.nop) =
      (l.filter fun o => o ≠ OpCode.nop).map (retargetOp ni) := by
  induction l with
  | nil => rfl
  | cons op rest ih =>
      by_cases h : op = OpCode.nop
      · have h1 : retargetOp ni op = OpCode.nop := (retargetOp_eq_nop ni op).mpr h
        rw [List.map_cons, List.filter_cons, List.filter_cons,
          if_neg (by simp [h1]), if_neg (by simp [h]), ih]
      · have h1 : retargetOp ni op ≠ OpCode.nop :=
          fun hc => h ((retargetOp_eq_nop ni op).mp hc)
        rw [List.map_cons, List.filter_cons, List.filter_cons,
          if_pos (by simpa using h1), if_pos (by simpa using h),
          List.map_cons, ih]

/-- Kept-counts are invariant under retargeting. -/
theorem keptCount_map_retarget (ni : List Nat) (l : List OpCode) :
    keptCount (l.map (retargetOp ni)) = keptCount l := by
  rw [keptCount, filter_map_retarget, List.length_map, keptCount]

/-- The saturation step only grows the set. -/
theorem subset_reachStep (code : List OpCode) (s : Finset ℕ) :
    s ⊆ reachStep code s :=
  Finset.subset_union_left

/-- The saturation step stays inside the index range. -/
theorem reachStep_subset_range (code : List OpCode) (s : Finset ℕ)
    (hs : s ⊆ Finset.range code.length) :
    reachStep code s ⊆ Finset.range code.length := by
  refine Finset.union_subset hs ?_
  intro j hj
  rw [Finset.mem_biUnion] at hj
  obtain ⟨i, _, hj⟩ := hj
  rw [List.mem_toFinset, List.mem_filter] at hj
  exact Finset.mem_range.mpr (by simpa using hj.2)

/-- Iterates of a growing map form a chain. -/
theorem iterate_subset_succ (f : Finset ℕ → Finset ℕ)
    (hgrow : ∀ t, t ⊆ f t) (s : Finset ℕ) (k : Nat) :
    f^[k] s ⊆ f^[k + 1] s := by
  rw [Function.iterate_succ_apply']
  exact hgrow _

/-- Iterates of a growing map are monotone in the iteration count. -/
theorem iterate_subset_of_le (f : Finset ℕ → Finset ℕ)
    (hgrow : ∀ t, t ⊆ f t) (s : Finset ℕ) {a b : Nat} (hab : a ≤ b) :
    f^[a] s ⊆ f^[b] s := by
  have key : ∀ c, f^[a] s ⊆ f^[a + c] s := by
    intro c
    induction c with
    | zero => simp
    | succ c ih =>
        rw [Nat.add_succ]
        exact ih.trans (iterate_subset_succ f hgrow s (a + c))
  obtain ⟨c, rfl⟩ := Nat.exists_eq_add_of_le hab
  exact key c

/-- Strictly growing iterates gain at least one element per step. -/
theorem card_le_iterate (f : Finset ℕ → Finset ℕ)
    (hgrow : ∀ t, t ⊆ f t) (s : Finset ℕ) :
    ∀ n : Nat, (∀ k, k < n → f (f^[k] s) ≠ f^[k] s) →
      s.card + n ≤ (f^[n] s).card := by
  intro n
  induction n with
  | zero => intro _; simp
  | succ n ih =>
      intro hne
      have h1 : s.card + n ≤ (f^[n] s).card :=
        ih fun k hk => hne k (Nat.lt_succ_of_lt hk)
      have h2 : (f^[n] s).card < (f^[n + 1] s).card := by
        apply Finset.card_lt_card
        rw [Function.iterate_succ_apply']
        exact ⟨hgrow _, fun hsub =>
          hne n (Nat.lt_succ_self n)
            (Finset.Subset.antisymm hsub (hgrow _))⟩
      omega

/-- A fixed point reached at stage `k` persists to every later stage. -/
theorem iterate_eq_of_fixed (f : Finset ℕ → Finset ℕ) (s : Finset ℕ)
    {k n : Nat} (hkn : k ≤ n) (hfix : f (f^[k] s) = f^[k] s) :
    f^[n] s = f^[k] s := by
  conv_lhs => rw [← Nat.sub_add_cancel hkn]
  rw [Function.iterate_add_apply]
  exact Function.iterate_fixed hfix _

/-- Every saturation iterate stays inside the index range. -/
theorem iterate_reach_subset_range (code : List OpCode) (h : code ≠ [])
    (k : Nat) :
    (reachStep code)^[k] ({0} : Finset ℕ) ⊆ Finset.range code.length := by
  have hpos : 0 < code.length := List.length_pos.mpr h
  induction k with
  | zero =>
      simp only [Function.iterate_zero, id_eq]
      exact Finset.singleton_subset_iff.mpr (Finset.mem_range.mpr hpos)
  | succ k ih =>
      rw [Function.iterate_succ_apply']
      exact reachStep_subset_range code _ ih

/-- Saturation: iterating the step `length` times from `{0}` reaches a
fixed point of the step (the worklist's least fixed point). -/
theorem reachStep_reachSet (code : List OpCode) (h : code ≠ []) :
    reachStep code (reachSet code) = reachSet code := by
  have hgrow : ∀ t, t ⊆ reachStep code t := subset_reachStep code
  rw [reachSet]
  by_contra hne
  have hAll : ∀ k, k ≤ code.length →
      reachStep code ((reachStep code)^[k] ({0} : Finset ℕ)) ≠
        (reachStep code)^[k] ({0} : Finset ℕ) := by
    intro k hk hfix
    apply hne
    rw [iterate_eq_of_fixed (reachStep code) {0} hk hfix]
    exact hfix
  have hcard := card_le_iterate (reachStep code) hgrow {0} code.length
    (fun k hk => hAll k (Nat.le_of_lt hk))
  have hle : ((reachStep code)^[code.length] ({0} : Finset ℕ)).card ≤
      code.length := by
    have := Finset.card_le_card (iterate_reach_subset_range code h code.length)
    simpa using this
  rw [Finset.card_singleton] at hcard
  omega

/-- Zero is always reachable in nonempty code. -/
theorem zero_mem_reachSet (code : List OpCode) (_h : code ≠ []) :
    0 ∈ reachSet code := by
  have : ({0} : Finset ℕ) ⊆ reachSet code :=
    iterate_subset_of_le (reachStep code) (subset_reachStep code) {0}
      (Nat.zero_le _)
  exact this (Finset.mem_singleton_self 0)

/-- Reachable indices are in range. -/
theorem reachSet_subset_range (code : List OpCode) (h : code ≠ []) :
    reachSet code ⊆ Finset.range code.length :=
  iterate_reach_subset_range code h code.length

/-- Reachability is closed under in-range successors. -/
theorem reachSet_closed (code : List OpCode) (h : code ≠ []) (i j : Nat)
    (hi : i ∈ reachSet code) (hj : j ∈ succsOf code i)
    (hjlen : j < code.length) : j ∈ reachSet code := by
  have hmem : j ∈ reachStep code (reachSet code) := by
    rw [reachStep]
    refine Finset.mem_union_right _ ?_
    rw [Finset.mem_biUnion]
    exact ⟨i, hi, by
      rw [List.mem_toFinset, List.mem_filter]
      exact ⟨hj, by simpa using hjlen⟩⟩
  rwa [reachStep_reachSet code h] at hmem

/-- Induction principle for reachability: a property of `0` preserved
along in-range successor edges holds of every reachable index. -/
theorem reachSet_induction (code : List OpCode) (P : ℕ → Prop) (h0 : P 0)
    (hstep : ∀ p i, p ∈ reachSet code → P p → i ∈ succsOf code p →
      i < code.length → P i) :
    ∀ i ∈ reachSet code, P i := by
  by_cases hcode : code = []
  · subst hcode
    intro i hi
    have hi0 : i ∈ ({0} : Finset ℕ) := by simpa [reachSet] using hi
    rwa [Finset.mem_singleton.mp hi0]
  · have hsub : ∀ k, (reachStep code)^[k] ({0} : Finset ℕ) ⊆ reachSet code := by
      intro k
      rcases le_or_lt k code.length with hk | hk
      · exact iterate_subset_of_le (reachStep code) (subset_reachStep code)
          {0} hk
      · have heq : (reachStep code)^[k] ({0} : Finset ℕ) = reachSet code := by
          rw [reachSet]
          exact iterate_eq_of_fixed (reachStep code) {0} (Nat.le_of_lt hk)
            (reachStep_reachSet code hcode)
        rw [heq]
    have hmain : ∀ k, ∀ i ∈ (reachStep code)^[k] ({0} : Finset ℕ), P i := by
      intro k
      induction k with
      | zero =>
          intro i hi
          simp only [Function.iterate_zero, id_eq, Finset.mem_singleton] at hi
          rwa [hi]
      | succ k ih =>
          intro i hi
          rw [Function.iterate_succ_apply'] at hi
          rcases Finset.mem_union.mp hi with hi | hi
          · exact ih i hi
          · rw [Finset.mem_biUnion] at hi
            obtain ⟨p, hp, hip⟩ := hi
            rw [List.mem_toFinset, List.mem_filter] at hip
            exact hstep p i (hsub k hp) (ih p hp) hip.1 (by simpa using hip.2)
    intro i hi
    exact hmain code.length i (by rwa [← reachSet])

/-- Kept-count of a Nop-free list is its length. -/
theorem keptCount_eq_length (l : List OpCode)
    (hl : ∀ op ∈ l, op ≠ OpCode.nop) : keptCount l = l.length := by
  rw [keptCount, List.filter_eq_self.mpr fun op hop => by
    simpa using hl op hop]

/-- On Nop-free code the old-to-new index map is the identity, so Nop
compaction retargets every jump to itself and keeps every instruction. -/
theorem removeNops_nopfree_code (l : List OpCode)
    (hl : ∀ op ∈ l, op ≠ OpCode.nop) :
    ((l.map (retargetOp (newIndices l))).filter fun o => o ≠ OpCode.nop) =
      l := by
  have hni : ∀ t, (newIndices l).get? t =
      if t < l.length then some t else none := by
    intro t
    rw [newIndices_get?]
    split
    · next hlt =>
        congr 1
        rw [keptCount_eq_length _ fun op hop =>
          hl op (List.mem_of_mem_take hop), List.length_take]
        omega
    · rfl
  have hre : ∀ op, retargetOp (newIndices l) op = op := by
    intro op
    cases op <;>
      first
      | rfl
      | (simp only [retargetOp]
         rw [hni]
         split_ifs <;> rfl)
  rw [List.map_congr_left fun a _ => hre a, List.map_id',
    List.filter_eq_self.mpr fun op hop => by simpa using hl op hop]

/-- Successor lists read off the fetched instruction. -/
theorem succsOf_eq_of_get? (l : List OpCode) (i : Nat) (op : OpCode)
    (h : l.get? i = some op) :
    succsOf l i =
      match op with
      | .jump t => [t]
      | .jumpIfFalse t => [t, i + 1]
      | .jumpIfTrue t => [t, i + 1]
      | .ret => []
      | .halt => []
      | _ => [i + 1] := by
  cases op <;> simp only [succsOf, h]

/-- Core of dead-code-elimination idempotence: every index of the
compacted output is reachable in the output.  The order-preserving map
from retained old indices to new indices is the prefix kept-count, and
reachability transports along it. -/
theorem dce_output_reachable (code : List OpCode) (hcode : code ≠ []) :
    ∀ j < (((markNopsFrom (reachSet code) 0 code).map
        (retargetOp (newIndices (markNopsFrom (reachSet code) 0 code)))).filter
          fun o => o ≠ OpCode.nop).length,
      j ∈ reachSet
        (((markNopsFrom (reachSet code) 0 code).map
            (retargetOp (newIndices (markNopsFrom (reachSet code) 0 code)))).filter
          fun o => o ≠ OpCode.nop) := by
  set R := reachSet code with hR
  set marked := markNopsFrom R 0 code with hmarked
  set ni := newIndices marked with hni
  set mapped := marked.map (retargetOp ni) with hmapped
  set code' := mapped.filter (fun o => o ≠ OpCode.nop) with hcode'
  have hmarked_len : marked.length = code.length := markNopsFrom_length R 0 code
  have hmarked_get : ∀ i, marked.get? i =
      (code.get? i).map fun op => if i ∈ R then op else .nop := by
    intro i
    rw [hmarked, markNopsFrom_get? R 0 code i]
    simp
  have hlen' : code'.length = keptCount marked := by
    rw [hcode', hmapped]
    show (List.filter _ _).length = _
    rw [← keptCount, keptCount_map_retarget]
  have htake : ∀ i, keptCount (mapped.take i) = keptCount (marked.take i) := by
    intro i
    rw [hmapped, ← List.map_take, keptCount_map_retarget]
  -- the key invariant, proved by reachability induction over the old code
  have hkey : ∀ p ∈ R, keptCount (marked.take p) ∈ reachSet code' ∨
      keptCount (marked.take p) = code'.length := by
    refine reachSet_induction code _ ?_ ?_
    · by_cases h0 : code' = []
      · right
        simp [h0, List.take_zero, keptCount]
      · left
        have : keptCount (marked.take 0) = 0 := by
          rw [List.take_zero]; rfl
        rw [this]
        exact zero_mem_reachSet code' h0
    · intro p i hp hP hi hilen
      have hplen : p < code.length :=
        Finset.mem_range.mp (reachSet_subset_range code hcode hp)
      obtain ⟨opP, hgetp⟩ : ∃ opP, code.get? p = some opP := by
        cases hc : code.get? p with
        | none =>
            rw [List.get?_eq_none] at hc
            omega
        | some opP => exact ⟨opP, rfl⟩
      have hmp : marked.get? p = some opP := by
        rw [hmarked_get p, hgetp]
        simp [hp]
      by_cases hOpP : opP = OpCode.nop
      · -- a reachable Nop falls through with an unchanged kept-count
        subst hOpP
        have hi1 : i = p + 1 := by
          rw [succsOf_eq_of_get? code p _ hgetp] at hi
          simpa using hi
        have hπ : keptCount (marked.take (p + 1)) =
            keptCount (marked.take p) := by
          rw [keptCount_take_succ marked p _ hmp]
          simp
        rw [hi1, hπ]
        exact hP
      · -- a retained instruction: its image sits in the output with the
        -- corresponding retargeted successors
        have hπlt : keptCount (marked.take p) < code'.length := by
          rw [hlen']
          exact keptCount_take_lt marked p opP hmp hOpP
        have hπR : keptCount (marked.take p) ∈ reachSet code' := by
          rcases hP with h | h
          · exact h
          · omega
        have hne' : code' ≠ [] := by
          intro hc
          rw [hc] at hπlt
          simp at hπlt
        have hmapg : mapped.get? p = some (retargetOp ni opP) := by
          rw [hmapped, List.get?_map, hmp]
          rfl
        have hkeep' : retargetOp ni opP ≠ OpCode.nop :=
          fun hc => hOpP ((retargetOp_eq_nop ni opP).mp hc)
        have hget' : code'.get? (keptCount (marked.take p)) =
            some (retargetOp ni opP) := by
          rw [hcode', ← htake p]
          exact filter_get?_keptCount mapped p _ hmapg hkeep'
        have hπsucc : keptCount (marked.take (p + 1)) =
            keptCount (marked.take p) + 1 := by
          rw [keptCount_take_succ marked p _ hmp, if_neg hOpP]
        have htlt : ∀ t, t < code.length →
            ni.get? t = some (keptCount (marked.take t)) := by
          intro t ht
          rw [hni, newIndices_get?, if_pos (by omega)]
        have hπle : ∀ t, keptCount (marked.take t) ≤ code'.length := by
          intro t
          rw [hlen']
          exact keptCount_take_le marked t
        have hfinish : ∀ q, q ∈ succsOf code' (keptCount (marked.take p)) →
            q ≤ code'.length → (q ∈ reachSet code' ∨ q = code'.length) := by
          intro q hq hqle
          rcases Nat.lt_or_ge q code'.length with hlt | hge
          · exact Or.inl (reachSet_closed code' hne' _ q hπR hq hlt)
          · right
            omega
        cases opP with
        | const idx =>
            have hip : i = p + 1 := by
              rw [succsOf_eq_of_get? code p _ hgetp] at hi
              simpa using hi
            subst hip
            rw [hπsucc]
            refine hfinish _ ?_ (by omega)
            simp only [retargetOp] at hget'
            rw [succsOf_eq_of_get? code' _ _ hget']
            simp
        | pop =>
            have hip : i = p + 1 := by
              rw [succsOf_eq_of_get? code p _ hgetp] at hi
              simpa using hi
            subst hip
            rw [hπsucc]
            refine hfinish _ ?_ (by omega)
            simp only [retargetOp] at hget'
            rw [succsOf_eq_of_get? code' _ _ hget']
            simp
        | dup =>
            have hip : i = p + 1 := by
              rw [succsOf_eq_of_get? code p _ hgetp] at hi
              simpa using hi
            subst hip
            rw [hπsucc]
            refine hfinish _ ?_ (by omega)
            simp only [retargetOp] at hget'
            rw [succsOf_eq_of_get? code' _ _ hget']
            simp
        | swap =>
            have hip : i = p + 1 := by
              rw [succsOf_eq_of_get? code p _ hgetp] at hi
              simpa using hi
            subst hip
            rw [hπsucc]
            refine hfinish _ ?_ (by omega)
            simp only [retargetOp] at hget'
            rw [succsOf_eq_of_get? code' _ _ hget']
            simp
        | loadLocal s =>
            have hip : i = p + 1 := by
              rw [succsOf_eq_of_get? code p _ hgetp] at hi
              simpa using hi
            subst hip
            rw [hπsucc]
            refine hfinish _ ?_ (by omega)
            simp only [retargetOp] at hget'
            rw [succsOf_eq_of_get? code' _ _ hget']
            simp
        | storeLocal s =>
            have hip : i = p + 1 := by
              rw [succsOf_eq_of_get? code p _ hgetp] at hi
              simpa using hi
            subst hip
            rw [hπsucc]
            refine hfinish _ ?_ (by omega)
            simp only [retargetOp] at hget'
            rw [succsOf_eq_of_get? code' _ _ hget']
            simp
        | loadGlobal n =>
            have hip : i = p + 1 := by
              rw [succsOf_eq_of_get? code p _ hgetp] at hi
              simpa using hi
            subst hip
            rw [hπsucc]
            refine hfinish _ ?_ (by omega)
            simp only [retargetOp] at hget'
            rw [succsOf_eq_of_get? code' _ _ hget']
            simp
        | storeGlobal n =>
            have hip : i = p + 1 := by
              rw [succsOf_eq_of_get? code p _ hgetp] at hi
              simpa using hi
            subst hip
            rw [hπsucc]
            refine hfinish _ ?_ (by omega)
            simp only [retargetOp] at hget'
            rw [succsOf_eq_of_get? code' _ _ hget']
            simp
        | add =>
            have hip : i = p + 1 := by
              rw [succsOf_eq_of_get? code p _ hgetp] at hi
              simpa using hi
            subst hip
            rw [hπsucc]
            refine hfinish _ ?_ (by omega)
            simp only [retargetOp] at hget'
            rw [succsOf_eq_of_get? code' _ _ hget']
            simp
        | sub =>
            have hip : i = p + 1 := by
              rw [succsOf_eq_of_get? code p _ hgetp] at hi
              simpa using hi
            subst hip
            rw [hπsucc]
            refine hfinish _ ?_ (by omega)
            simp only [retargetOp] at hget'
            rw [succsOf_eq_of_get? code' _ _ hget']
            simp
        | mul =>
            have hip : i = p + 1 := by
              rw [succsOf_eq_of_get? code p _ hgetp] at hi
              simpa using hi
            subst hip
            rw [hπsucc]
            refine hfinish _ ?_ (by omega)
            simp only [retargetOp] at hget'
            rw [succsOf_eq_of_get? code' _ _ hget']
            simp
        | div =>
            have hip : i = p + 1 := by
              rw [succsOf_eq_of_get? code p _ hgetp] at hi
              simpa using hi
            subst hip
            rw [hπsucc]
            refine hfinish _ ?_ (by omega)
            simp only [retargetOp] at hget'
            rw [succsOf_eq_of_get? code' _ _ hget']
            simp
        | mod =>
            have hip : i = p + 1 := by
              rw [succsOf_eq_of_get? code p _ hgetp] at hi
              simpa using hi
            subst hip
            rw [hπsucc]
            refine hfinish _ ?_ (by omega)
            simp only [retargetOp] at hget'
            rw [succsOf_eq_of_get? code' _ _ hget']
            simp
        | neg =>
            have hip : i = p + 1 := by
              rw [succsOf_eq_of_get? code p _ hgetp] at hi
              simpa using hi
            subst hip
            rw [hπsucc]
            refine hfinish _ ?_ (by omega)
            simp only [retargetOp] at hget'
            rw [succsOf_eq_of_get? code' _ _ hget']
            simp
        | eq =>
            have hip : i = p + 1 := by
              rw [succsOf_eq_of_get? code p _ hgetp] at hi
              simpa using hi
            subst hip
            rw [hπsucc]
            refine hfinish _ ?_ (by omega)
            simp only [retargetOp] at hget'
            rw [succsOf_eq_of_get? code' _ _ hget']
            simp
        | ne =>
            have hip : i = p + 1 := by
              rw [succsOf_eq_of_get? code p _ hgetp] at hi
              simpa using hi
            subst hip
            rw [hπsucc]
            refine hfinish _ ?_ (by omega)
            simp only [retargetOp] at hget'
            rw [succsOf_eq_of_get? code' _ _ hget']
            simp
        | lt =>
            have hip : i = p + 1 := by
              rw [succsOf_eq_of_get? code p _ hgetp] at hi
              simpa using hi
            subst hip
            rw [hπsucc]
            refine hfinish _ ?_ (by omega)
            simp only [retargetOp] at hget'
            rw [succsOf_eq_of_get? code' _ _ hget']
            simp
        | le =>
            have hip : i = p + 1 := by
              rw [succsOf_eq_of_get? code p _ hgetp] at hi
              simpa using hi
            subst hip
            rw [hπsucc]
            refine hfinish _ ?_ (by omega)
            simp only [retargetOp] at hget'
            rw [succsOf_eq_of_get? code' _ _ hget']
            simp
        | gt =>
            have hip : i = p + 1 := by
              rw [succsOf_eq_of_get? code p _ hgetp] at hi
              simpa using hi
            subst hip
            rw [hπsucc]
            refine hfinish _ ?_ (by omega)
            simp only [retargetOp] at hget'
            rw [succsOf_eq_of_get? code' _ _ hget']
            simp
        | ge =>
            have hip : i = p + 1 := by
              rw [succsOf_eq_of_get? code p _ hgetp] at hi
              simpa using hi
            subst hip
            rw [hπsucc]
            refine hfinish _ ?_ (by omega)
            simp only [retargetOp] at hget'
            rw [succsOf_eq_of_get? code' _ _ hget']
            simp
        | and =>
            have hip : i = p + 1 := by
              rw [succsOf_eq_of_get? code p _ hgetp] at hi
              simpa using hi
            subst hip
            rw [hπsucc]
            refine hfinish _ ?_ (by omega)
            simp only [retargetOp] at hget'
            rw [succsOf_eq_of_get? code' _ _ hget']
            simp
        | or =>
            have hip : i = p + 1 := by
              rw [succsOf_eq_of_get? code p _ hgetp] at hi
              simpa using hi
            subst hip
            rw [hπsucc]
            refine hfinish _ ?_ (by omega)
            simp only [retargetOp] at hget'
            rw [succsOf_eq_of_get? code' _ _ hget']
            simp
        | not =>
            have hip : i = p + 1 := by
              rw [succsOf_eq_of_get? code p _ hgetp] at hi
              simpa using hi
            subst hip
            rw [hπsucc]
            refine hfinish _ ?_ (by omega)
            simp only [retargetOp] at hget'
            rw [succsOf_eq_of_get? code' _ _ hget']
            simp
        | concat =>
            have hip : i = p + 1 := by
              rw [succsOf_eq_of_get? code p _ hgetp] at hi
              simpa using hi
            subst hip
            rw [hπsucc]
            refine hfinish _ ?_ (by omega)
            simp only [retargetOp] at hget'
            rw [succsOf_eq_of_get? code' _ _ hget']
            simp
        | jump t =>
            have hit : i = t := by
              rw [succsOf_eq_of_get? code p _ hgetp] at hi
              simpa using hi
            subst hit
            have hget2 : code'.get? (keptCount (marked.take p)) =
                some (.jump (keptCount (marked.take i))) := by
              rw [hget']
              simp only [retargetOp, htlt i hilen]
            refine hfinish _ ?_ (hπle i)
            rw [succsOf_eq_of_get? code' _ _ hget2]
            simp
        | jumpIfFalse t =>
            have hcases : i = t ∨ i = p + 1 := by
              rw [succsOf_eq_of_get? code p _ hgetp] at hi
              simpa using hi
            rcases hcases with hit | hip
            · subst hit
              have hget2 : code'.get? (keptCount (marked.take p)) =
                  some (.jumpIfFalse (keptCount (marked.take i))) := by
                rw [hget']
                simp only [retargetOp, htlt i hilen]
              refine hfinish _ ?_ (hπle i)
              rw [succsOf_eq_of_get? code' _ _ hget2]
              simp
            · subst hip
              rw [hπsucc]
              refine hfinish _ ?_ (by omega)
              rcases hnit : ni.get? t with _ | t2 <;>
                · simp only [retargetOp, hnit] at hget'
                  rw [succsOf_eq_of_get? code' _ _ hget']
                  simp
        | jumpIfTrue t =>
            have hcases : i = t ∨ i = p + 1 := by
              rw [succsOf_eq_of_get? code p _ hgetp] at hi
              simpa using hi
            rcases hcases with hit | hip
            · subst hit
              have hget2 : code'.get? (keptCount (marked.take p)) =
                  some (.jumpIfTrue (keptCount (marked.take i))) := by
                rw [hget']
                simp only [retargetOp, htlt i hilen]
              refine hfinish _ ?_ (hπle i)
              rw [succsOf_eq_of_get? code' _ _ hget2]
              simp
            · subst hip
              rw [hπsucc]
              refine hfinish _ ?_ (by omega)
              rcases hnit : ni.get? t with _ | t2 <;>
                · simp only [retargetOp, hnit] at hget'
                  rw [succsOf_eq_of_get? code' _ _ hget']
                  simp
        | call n =>
            have hip : i = p + 1 := by
              rw [succsOf_eq_of_get? code p _ hgetp] at hi
              simpa using hi
            subst hip
            rw [hπsucc]
            refine hfinish _ ?_ (by omega)
            simp only [retargetOp] at hget'
            rw [succsOf_eq_of_get? code' _ _ hget']
            simp
        | ret =>
            rw [succsOf_eq_of_get? code p _ hgetp] at hi
            simp at hi
        | makeClosure fi =>
            have hip : i = p + 1 := by
              rw [succsOf_eq_of_get? code p _ hgetp] at hi
              simpa using hi
            subst hip
            rw [hπsucc]
            refine hfinish _ ?_ (by omega)
            simp only [retargetOp] at hget'
            rw [succsOf_eq_of_get? code' _ _ hget']
            simp
        | makeArray n =>
            have hip : i = p + 1 := by
              rw [succsOf_eq_of_get? code p _ hgetp] at hi
              simpa using hi
            subst hip
            rw [hπsucc]
            refine hfinish _ ?_ (by omega)
            simp only [retargetOp] at hget'
            rw [succsOf_eq_of_get? code' _ _ hget']
            simp
        | makeRecord n =>
            have hip : i = p + 1 := by
              rw [succsOf_eq_of_get? code p _ hgetp] at hi
              simpa using hi
            subst hip
            rw [hπsucc]
            refine hfinish _ ?_ (by omega)
            simp only [retargetOp] at hget'
            rw [succsOf_eq_of_get? code' _ _ hget']
            simp
        | index =>
            have hip : i = p + 1 := by
              rw [succsOf_eq_of_get? code p _ hgetp] at hi
              simpa using hi
            subst hip
            rw [hπsucc]
            refine hfinish _ ?_ (by omega)
            simp only [retargetOp] at hget'
            rw [succsOf_eq_of_get? code' _ _ hget']
            simp
        | len =>
            have hip : i = p + 1 := by
              rw [succsOf_eq_of_get? code p _ hgetp] at hi
              simpa using hi
            subst hip
            rw [hπsucc]
            refine hfinish _ ?_ (by omega)
            simp only [retargetOp] at hget'
            rw [succsOf_eq_of_get? code' _ _ hget']
            simp
        | makeOkay =>
            have hip : i = p + 1 := by
              rw [succsOf_eq_of_get? code p _ hgetp] at hi
              simpa using hi
            subst hip
            rw [hπsucc]
            refine hfinish _ ?_ (by omega)
            simp only [retargetOp] at hget'
            rw [succsOf_eq_of_get? code' _ _ hget']
            simp
        | makeOops =>
            have hip : i = p + 1 := by
              rw [succsOf_eq_of_get? code p _ hgetp] at hi
              simpa using hi
            subst hip
            rw [hπsucc]
            refine hfinish _ ?_ (by omega)
            simp only [retargetOp] at hget'
            rw [succsOf_eq_of_get? code' _ _ hget']
            simp
        | tryUnwrap =>
            have hip : i = p + 1 := by
              rw [succsOf_eq_of_get? code p _ hgetp] at hi
              simpa using hi
            subst hip
            rw [hπsucc]
            refine hfinish _ ?_ (by omega)
            simp only [retargetOp] at hget'
            rw [succsOf_eq_of_get? code' _ _ hget']
            simp
        | isOkay =>
            have hip : i = p + 1 := by
              rw [succsOf_eq_of_get? code p _ hgetp] at hi
              simpa using hi
            subst hip
            rw [hπsucc]
            refine hfinish _ ?_ (by omega)
            simp only [retargetOp] at hget'
            rw [succsOf_eq_of_get? code' _ _ hget']
            simp
        | print =>
            have hip : i = p + 1 := by
              rw [succsOf_eq_of_get? code p _ hgetp] at hi
              simpa using hi
            subst hip
            rw [hπsucc]
            refine hfinish _ ?_ (by omega)
            simp only [retargetOp] at hget'
            rw [succsOf_eq_of_get? code' _ _ hget']
            simp
        | toString =>
            have hip : i = p + 1 := by
              rw [succsOf_eq_of_get? code p _ hgetp] at hi
              simpa using hi
            subst hip
            rw [hπsucc]
            refine hfinish _ ?_ (by omega)
            simp only [retargetOp] at hget'
            rw [succsOf_eq_of_get? code' _ _ hget']
            simp
        | nop =>
            exact absurd rfl hOpP
        | halt =>
            rw [succsOf_eq_of_get? code p _ hgetp] at hi
            simp at hi
  -- transport back along the retained-index correspondence
  intro j hj
  cases hj' : code'.get? j with
  | none =>
      rw [List.get?_eq_none] at hj'
      omega
  | some op =>
      obtain ⟨i, hmo, hkeepop, hcnt⟩ := filter_get?_surj mapped j op hj'
      rw [hmapped, List.get?_map] at hmo
      cases hmi : marked.get? i with
      | none => rw [hmi] at hmo; simp at hmo
      | some op1 =>
          rw [hmi] at hmo
          have hop1 : op1 ≠ OpCode.nop := by
            intro hc
            apply hkeepop
            have : op = retargetOp ni op1 := by
              simpa using hmo.symm
            rw [this, hc]
            exact (retargetOp_eq_nop ni _).mpr rfl
          have hmg := hmarked_get i
          rw [hmi] at hmg
          cases hci : code.get? i with
          | none => rw [hci] at hmg; simp at hmg
          | some opP =>
              rw [hci] at hmg
              by_cases hiR : i ∈ R
              · have hki := hkey i hiR
                rw [htake i] at hcnt
                rw [hcnt] at hki
                rcases hki with h | h
                · exact h
                · omega
              · exfalso
                apply hop1
                have h2 : some op1 = some OpCode.nop := by
                  rw [hmg]
                  simp [hiR]
                simpa using h2

/-- Dead-code elimination is idempotent: after one pass every remaining
instruction is reachable and Nop-free, so a second pass marks nothing and
the compaction is the identity. -/
theorem eliminateDeadCode_idem (f : CompiledFunction) :
    eliminateDeadCode (eliminateDeadCode f) = eliminateDeadCode f := by
  by_cases h1 : f.code.isEmpty
  · simp [eliminateDeadCode, h1]
  · have hcode : f.code ≠ [] := by simpa [List.isEmpty_iff] using h1
    set marked := markNopsFrom (reachSet f.code) 0 f.code with hmarked
    set code' :=
      ((marked.map (retargetOp (newIndices marked))).filter
        fun o => o ≠ OpCode.nop) with hcode'
    have happ1 : eliminateDeadCode f = { f with code := code' } := by
      rw [eliminateDeadCode, if_neg h1]
      rfl
    rw [happ1]
    by_cases h2 : code'.isEmpty
    · simp [eliminateDeadCode, h2]
    · have hnopfree : ∀ op ∈ code', op ≠ OpCode.nop := by
        intro op hop
        rw [hcode'] at hop
        have := List.mem_filter.mp hop
        simpa using this.2
      have hreach := dce_output_reachable f.code hcode
      rw [← hmarked] at hreach
      rw [← hcode'] at hreach
      have hmark_id : markNopsFrom (reachSet code') 0 code' = code' := by
        apply markNopsFrom_id
        intro i hi
        simpa using hreach i hi
      rw [eliminateDeadCode, if_neg (by simpa using h2)]
      show removeNops { f with code := markNopsFrom (reachSet code') 0 code' }
          = _
      rw [hmark_id]
      show { f with code :=
          ((code'.map (retargetOp (newIndices code'))).filter
            fun o => o ≠ OpCode.nop) } = _
      rw [removeNops_nopfree_code code' hnopfree]

/-- C7 counterexample: constant folding and peephole are not idempotent.
A second constant-folding pass shrinks
`Const 1; Const 2; Const 3; Add; Add` further (the Nop compaction of the
first pass created a fresh `Const; Const; Add` triple), and a second
peephole pass shrinks `Dup; Dup; Pop; Pop; Return` further (the
compaction made the outer `Dup; Pop` adjacent). -/
theorem c7_fold_peephole_not_idempotent :
    foldConstants (foldConstants c7FoldEx) ≠ foldConstants c7FoldEx ∧
    peepholeOptimize (peepholeOptimize c7PeepEx) ≠ peepholeOptimize c7PeepEx := by
  constructor
  · intro h
    exact absurd (congrArg (fun g => g.code.length) h) (by decide)
  · intro h
    exact absurd (congrArg (fun g => g.code.length) h) (by decide)

/-- C7 amended: of the three optimizer passes, dead-code elimination is
idempotent on every compiled function, while constant folding and
peephole are not — for each of the latter there is a compiled function
whose code a second application of the same pass changes again, because
the ending Nop compaction can create new instances of their patterns. -/
theorem c7_amended_only_dce_idempotent :
    (∀ f : CompiledFunction,
        eliminateDeadCode (eliminateDeadCode f) = eliminateDeadCode f) ∧
    foldConstants (foldConstants c7FoldEx) ≠ foldConstants c7FoldEx ∧
    peepholeOptimize (peepholeOptimize c7PeepEx) ≠ peepholeOptimize c7PeepEx := by
  refine ⟨eliminateDeadCode_idem, ?_, ?_⟩
  · intro h
    exact absurd (congrArg (fun g => g.code.length) h) (by decide)
  · intro h
    exact absurd (congrArg (fun g => g.code.length) h) (by decide)

end Wokelang